import Mathlib

/-!
# Verification of the twilight in-memory cache (`src/cache/in-memory/src/lib.rs`)

This file gives a shallow embedding of the `InMemoryCache` engine and proves
properties about it.

Modelling conventions:

* Every `DashMap<K, V>` is modelled as an association list `List (K × V)`.
  `mapLookup` returns the first binding for a key, `mapInsert` replaces the
  first binding in place (or appends a fresh binding), and `mapErase` drops
  all bindings of a key.  This matches the per-key atomic contract of the
  concurrent map: get / insert / remove / entry-or-default.
* Every `HashSet<A>` / `BTreeSet<A>` is modelled as a `List A` where
  `setInsert` is insert-if-absent and `setErase` removes all occurrences.
* Id newtypes (`GuildId`, `ChannelId`, ...) are modelled as `Nat`.
* The entity payload types come from the external `twilight_model` crate
  (out of scope data carriers).  They are abridged to the key fields the
  cache logic reads plus a `payload : Nat` component standing for the
  remaining wire-format fields; structural equality on the abridged
  structures models the derived `PartialEq` of the originals.
-/

set_option autoImplicit false

namespace TwilightCache

/-! ## Association-list maps (model of `DashMap`) -/

def mapLookup {K V : Type} [DecidableEq K] (k : K) : List (K × V) → Option V
  | [] => none
  | (k', v) :: rest => if k' = k then some v else mapLookup k rest

def mapInsert {K V : Type} [DecidableEq K] (k : K) (v : V) : List (K × V) → List (K × V)
  | [] => [(k, v)]
  | (k', v') :: rest => if k' = k then (k, v) :: rest else (k', v') :: mapInsert k v rest

def mapErase {K V : Type} [DecidableEq K] (k : K) : List (K × V) → List (K × V)
  | [] => []
  | (k', v) :: rest => if k' = k then mapErase k rest else (k', v) :: mapErase k rest

def keysOf {K V : Type} (m : List (K × V)) : List K :=
  m.map Prod.fst

/-! ## List sets (model of `HashSet` / `BTreeSet`) -/

def setInsert {A : Type} [DecidableEq A] (a : A) (s : List A) : List A :=
  if a ∈ s then s else s ++ [a]

def setErase {A : Type} [DecidableEq A] (a : A) : List A → List A
  | [] => []
  | b :: rest => if b = a then setErase a rest else b :: setErase a rest

/-- The membership set stored under a key, the empty set when the key has no
entry (`Option::unwrap_or_default` flavour of reads). -/
def setLookup {K A : Type} [DecidableEq K] (m : List (K × List A)) (k : K) : List A :=
  (mapLookup k m).getD []

/-- `map.entry(k).or_default().insert(a)`: insert `a` into the membership set
stored under `k`, creating the entry if absent. -/
def entryInsert {K A : Type} [DecidableEq K] [DecidableEq A]
    (m : List (K × List A)) (k : K) (a : A) : List (K × List A) :=
  mapInsert k (setInsert a (setLookup m k)) m

/-! ### Lemmas about the map model -/

section MapLemmas

variable {K V : Type} [DecidableEq K]

@[simp] theorem mapLookup_nil (k : K) : mapLookup (V := V) k [] = none := rfl

@[simp] theorem mapLookup_insert_self (k : K) (v : V) (m : List (K × V)) :
    mapLookup k (mapInsert k v m) = some v := by
  induction m with
  | nil => simp [mapInsert, mapLookup]
  | cons p rest ih =>
    obtain ⟨k', v'⟩ := p
    by_cases h : k' = k
    · simp [mapInsert, h, mapLookup]
    · simp [mapInsert, h, mapLookup, ih]

theorem mapLookup_insert_ne {k' k : K} (h : k' ≠ k) (v : V) (m : List (K × V)) :
    mapLookup k' (mapInsert k v m) = mapLookup k' m := by
  have h' : ¬(k = k') := fun hh => h hh.symm
  induction m with
  | nil => simp [mapInsert, mapLookup, h']
  | cons p rest ih =>
    obtain ⟨k₀, v₀⟩ := p
    by_cases hk : k₀ = k
    · subst hk
      simp [mapInsert, mapLookup, h']
    · by_cases hk' : k₀ = k'
      · simp [mapInsert, hk, mapLookup, hk', h]
      · simp [mapInsert, hk, mapLookup, hk', ih]

@[simp] theorem mapLookup_erase_self (k : K) (m : List (K × V)) :
    mapLookup k (mapErase k m) = none := by
  induction m with
  | nil => simp [mapErase]
  | cons p rest ih =>
    obtain ⟨k₀, v₀⟩ := p
    by_cases hk : k₀ = k
    · simp [mapErase, hk, ih]
    · simp [mapErase, hk, mapLookup, ih]

theorem mapLookup_erase_ne {k' k : K} (h : k' ≠ k) (m : List (K × V)) :
    mapLookup k' (mapErase k m) = mapLookup k' m := by
  have h' : ¬(k = k') := fun hh => h hh.symm
  induction m with
  | nil => simp [mapErase]
  | cons p rest ih =>
    obtain ⟨k₀, v₀⟩ := p
    by_cases hk : k₀ = k
    · subst hk
      simp [mapErase, mapLookup, h', ih]
    · simp [mapErase, hk, mapLookup, ih]

/-- Re-inserting the value a key already holds leaves the map unchanged. -/
theorem mapInsert_lookup_eq {k : K} {v : V} {m : List (K × V)}
    (h : mapLookup k m = some v) : mapInsert k v m = m := by
  induction m with
  | nil => simp [mapLookup] at h
  | cons p rest ih =>
    obtain ⟨k₀, v₀⟩ := p
    by_cases hk : k₀ = k
    · subst hk
      simp [mapLookup] at h
      simp [mapInsert, h]
    · simp [mapLookup, hk] at h
      simp [mapInsert, hk, ih h]

/-- Erasing an absent key leaves the map unchanged. -/
theorem mapErase_lookup_none {k : K} {m : List (K × V)}
    (h : mapLookup k m = none) : mapErase k m = m := by
  induction m with
  | nil => simp [mapErase]
  | cons p rest ih =>
    obtain ⟨k₀, v₀⟩ := p
    by_cases hk : k₀ = k
    · simp [mapLookup, hk] at h
    · simp [mapLookup, hk] at h
      simp [mapErase, hk, ih h]

theorem mapErase_insert (k : K) (v : V) (m : List (K × V)) :
    mapErase k (mapInsert k v m) = mapErase k m := by
  induction m with
  | nil => simp [mapInsert, mapErase]
  | cons p rest ih =>
    obtain ⟨k₀, v₀⟩ := p
    by_cases hk : k₀ = k
    · simp [mapInsert, hk, mapErase, ih]
    · simp [mapInsert, hk, mapErase, ih]

theorem mem_keysOf_iff {k : K} {m : List (K × V)} :
    k ∈ keysOf m ↔ (mapLookup k m).isSome := by
  induction m with
  | nil => simp [keysOf, mapLookup]
  | cons p rest ih =>
    obtain ⟨k₀, v₀⟩ := p
    by_cases hk : k₀ = k
    · simp [keysOf, mapLookup, hk]
    · simp only [keysOf, List.map_cons, List.mem_cons, mapLookup, hk, if_false]
      constructor
      · rintro (h | h)
        · exact absurd h.symm hk
        · exact ih.mp (by simpa [keysOf] using h)
      · intro h
        exact Or.inr (by simpa [keysOf] using ih.mpr h)

theorem mapLookup_isSome_of_mem_keysOf {k : K} {m : List (K × V)}
    (h : k ∈ keysOf m) : (mapLookup k m).isSome :=
  mem_keysOf_iff.mp h

theorem mem_keysOf_of_lookup {k : K} {v : V} {m : List (K × V)}
    (h : mapLookup k m = some v) : k ∈ keysOf m :=
  mem_keysOf_iff.mpr (by simp [h])

theorem mem_keysOf_insert {k' k : K} {v : V} {m : List (K × V)} :
    k' ∈ keysOf (mapInsert k v m) ↔ k' = k ∨ k' ∈ keysOf m := by
  by_cases h : k' = k
  · subst h
    simp [mem_keysOf_iff]
  · rw [mem_keysOf_iff, mapLookup_insert_ne h, ← mem_keysOf_iff]
    simp [h]

theorem mem_keysOf_erase {k' k : K} {m : List (K × V)}
    (h : k' ∈ keysOf (mapErase k m)) : k' ≠ k ∧ k' ∈ keysOf m := by
  by_cases hk : k' = k
  · subst hk
    rw [mem_keysOf_iff, mapLookup_erase_self] at h
    simp at h
  · rw [mem_keysOf_iff, mapLookup_erase_ne hk, ← mem_keysOf_iff] at h
    exact ⟨hk, h⟩

end MapLemmas

/-! ### Lemmas about the set model -/

section SetLemmas

variable {A : Type} [DecidableEq A]

theorem mem_setInsert_iff {x a : A} {s : List A} :
    x ∈ setInsert a s ↔ x = a ∨ x ∈ s := by
  unfold setInsert
  by_cases h : a ∈ s
  · simp only [h, if_true]
    constructor
    · exact Or.inr
    · rintro (rfl | hx)
      · exact h
      · exact hx
  · simp [h, or_comm]

@[simp] theorem mem_setInsert_self (a : A) (s : List A) : a ∈ setInsert a s :=
  mem_setInsert_iff.mpr (Or.inl rfl)

theorem setInsert_of_mem {a : A} {s : List A} (h : a ∈ s) : setInsert a s = s := by
  simp [setInsert, h]

theorem setInsert_ne_nil (a : A) (s : List A) : setInsert a s ≠ [] := by
  intro h
  have := mem_setInsert_self a s
  rw [h] at this
  simp at this

theorem mem_setErase_iff {x a : A} {s : List A} :
    x ∈ setErase a s ↔ x ∈ s ∧ x ≠ a := by
  induction s with
  | nil => simp [setErase]
  | cons b rest ih =>
    by_cases hb : b = a
    · subst hb
      simp only [setErase, if_true, List.mem_cons]
      rw [ih]
      constructor
      · rintro ⟨hx, hne⟩
        exact ⟨Or.inr hx, hne⟩
      · rintro ⟨hx | hx, hne⟩
        · exact absurd hx hne
        · exact ⟨hx, hne⟩
    · simp only [setErase, hb, if_false, List.mem_cons]
      rw [ih]
      constructor
      · rintro (rfl | ⟨hx, hne⟩)
        · exact ⟨Or.inl rfl, hb⟩
        · exact ⟨Or.inr hx, hne⟩
      · rintro ⟨hx | hx, hne⟩
        · exact Or.inl hx
        · exact Or.inr ⟨hx, hne⟩

theorem not_mem_setErase_self (a : A) (s : List A) : a ∉ setErase a s := by
  intro h
  exact (mem_setErase_iff.mp h).2 rfl

theorem setErase_of_not_mem {a : A} {s : List A} (h : a ∉ s) : setErase a s = s := by
  induction s with
  | nil => rfl
  | cons b rest ih =>
    have hb : b ≠ a := fun hh => h (hh ▸ List.mem_cons_self b rest)
    have hr : a ∉ rest := fun hh => h (List.mem_cons_of_mem b hh)
    simp [setErase, hb, ih hr]

theorem setErase_eq_nil_iff {a : A} {s : List A} :
    setErase a s = [] ↔ ∀ x ∈ s, x = a := by
  constructor
  · intro h x hx
    by_contra hne
    have : x ∈ setErase a s := mem_setErase_iff.mpr ⟨hx, hne⟩
    rw [h] at this
    simp at this
  · intro h
    induction s with
    | nil => rfl
    | cons b rest ih =>
      have hb : b = a := h b (List.mem_cons_self b rest)
      have := ih fun x hx => h x (List.mem_cons_of_mem b hx)
      simp [setErase, hb, this]

theorem setErase_ne_nil_of_mem {x a : A} {s : List A} (hx : x ∈ s) (hne : x ≠ a) :
    setErase a s ≠ [] := by
  intro h
  exact hne (setErase_eq_nil_iff.mp h x hx)

end SetLemmas

/-! ### Lemmas about set-valued maps -/

section EntryLemmas

variable {K A : Type} [DecidableEq K] [DecidableEq A]

theorem setLookup_entryInsert_self (m : List (K × List A)) (k : K) (a : A) :
    setLookup (entryInsert m k a) k = setInsert a (setLookup m k) := by
  simp [entryInsert, setLookup]

theorem setLookup_entryInsert_ne {k' k : K} (h : k' ≠ k) (m : List (K × List A)) (a : A) :
    setLookup (entryInsert m k a) k' = setLookup m k' := by
  simp [entryInsert, setLookup, mapLookup_insert_ne h]

theorem mem_setLookup_entryInsert_self (m : List (K × List A)) (k : K) (a : A) :
    a ∈ setLookup (entryInsert m k a) k := by
  rw [setLookup_entryInsert_self]
  exact mem_setInsert_self _ _

/-- `entryInsert` only grows membership sets. -/
theorem setLookup_entryInsert_superset {x : A} {k' : K} (m : List (K × List A)) (k : K) (a : A)
    (h : x ∈ setLookup m k') : x ∈ setLookup (entryInsert m k a) k' := by
  by_cases hk : k' = k
  · subst hk
    rw [setLookup_entryInsert_self]
    exact mem_setInsert_iff.mpr (Or.inr h)
  · rwa [setLookup_entryInsert_ne hk]

omit [DecidableEq A] in
theorem mem_setLookup_isSome {x : A} {k : K} {m : List (K × List A)}
    (h : x ∈ setLookup m k) : (mapLookup k m).isSome := by
  unfold setLookup at h
  cases hl : mapLookup k m with
  | none => rw [hl] at h; simp at h
  | some s => simp

/-- `entryInsert` over an existing member is a no-op, as the exact same list. -/
theorem entryInsert_of_mem {k : K} {a : A} {m : List (K × List A)}
    (h : a ∈ setLookup m k) : entryInsert m k a = m := by
  have hsome := mem_setLookup_isSome h
  cases hl : mapLookup k m with
  | none => rw [hl] at hsome; simp at hsome
  | some s =>
    have hs : setLookup m k = s := by simp [setLookup, hl]
    rw [hs] at h
    unfold entryInsert
    rw [hs, setInsert_of_mem h]
    exact mapInsert_lookup_eq hl

end EntryLemmas

/-! ## Ids -/

abbrev GuildId := Nat
abbrev ChannelId := Nat
abbrev UserId := Nat
abbrev EmojiId := Nat
abbrev RoleId := Nat
abbrev StageId := Nat
abbrev IntegrationId := Nat
abbrev MessageId := Nat

/-! ## Entity types (abridged `twilight_model` payloads, see header) -/

structure User where
  id : UserId
  payload : Nat
deriving DecidableEq

structure CurrentUser where
  id : UserId
  payload : Nat
deriving DecidableEq

structure ChannelData where
  id : ChannelId
  guild_id : Option GuildId
  payload : Nat
deriving DecidableEq

/-- `twilight_model::channel::GuildChannel`: a four-variant enum. -/
inductive GuildChannel
  | category (c : ChannelData)
  | text (c : ChannelData)
  | voice (c : ChannelData)
  | stage (c : ChannelData)
deriving DecidableEq

/-- `GuildChannel::id()`. -/
def GuildChannel.id : GuildChannel → ChannelId
  | .category c => c.id
  | .text c => c.id
  | .voice c => c.id
  | .stage c => c.id

/-- The owning-guild field of a guild channel. -/
def GuildChannel.guildIdField : GuildChannel → Option GuildId
  | .category c => c.guild_id
  | .text c => c.guild_id
  | .voice c => c.guild_id
  | .stage c => c.guild_id

/-- The `match channel { ... c.guild_id.replace(guild_id) ... }` block of
`cache_guild_channel`: overwrite the owning-guild field on every variant. -/
def GuildChannel.withGuildId (g : GuildId) : GuildChannel → GuildChannel
  | .category c => .category { c with guild_id := some g }
  | .text c => .text { c with guild_id := some g }
  | .voice c => .voice { c with guild_id := some g }
  | .stage c => .stage { c with guild_id := some g }

structure PrivateChannel where
  id : ChannelId
  payload : Nat
deriving DecidableEq

structure Group where
  id : ChannelId
  payload : Nat
deriving DecidableEq

structure Emoji where
  id : EmojiId
  user : Option User
  payload : Nat
deriving DecidableEq

/-- The cached projection built inside `cache_emoji`: the uploader is
normalized to a user-id back-reference. -/
structure CachedEmoji where
  id : EmojiId
  user_id : Option UserId
  payload : Nat
deriving DecidableEq

/-- The `CachedEmoji { id: emoji.id, ..., user_id, ... }` construction of
`cache_emoji`. -/
def toCachedEmoji (emoji : Emoji) : CachedEmoji :=
  { id := emoji.id, user_id := emoji.user.map (fun u => u.id), payload := emoji.payload }

/-- Modelled from the spec: the `PartialEq<Emoji> for CachedEmoji` used by
`cached_emoji.data == emoji` lives in the crate's `model` module, which is not
among the provided sources.  §4.2: "Equality is structural (field-by-field)
over the cached projection, not the raw input". -/
def cachedEmojiEqEmoji (cached : CachedEmoji) (emoji : Emoji) : Bool :=
  decide (cached = toCachedEmoji emoji)

structure Role where
  id : RoleId
  payload : Nat
deriving DecidableEq

structure StageInstance where
  id : StageId
  channel_id : ChannelId
  guild_id : GuildId
  payload : Nat
deriving DecidableEq

structure GuildIntegration where
  id : IntegrationId
  payload : Nat
deriving DecidableEq

structure Member where
  user : User
  deaf : Bool
  mute : Bool
  nick : Option Nat
  joined_at : Option Nat
  pending : Bool
  premium_since : Option Nat
  roles : List RoleId
deriving DecidableEq

structure CachedMember where
  deaf : Option Bool
  guild_id : GuildId
  joined_at : Option Nat
  mute : Option Bool
  nick : Option Nat
  pending : Bool
  premium_since : Option Nat
  roles : List RoleId
  user_id : UserId
deriving DecidableEq

/-- The `CachedMember { ... }` construction of `cache_member`. -/
def toCachedMember (guild_id : GuildId) (member : Member) : CachedMember :=
  { deaf := some member.deaf
    guild_id := guild_id
    joined_at := member.joined_at
    mute := some member.mute
    nick := member.nick
    pending := member.pending
    premium_since := member.premium_since
    roles := member.roles
    user_id := member.user.id }

/-- Modelled from the spec: the `PartialEq<Member> for CachedMember` used by
`*m == member` lives in the crate's `model` module, which is not among the
provided sources.  §4.2: structural equality over the cached projection. -/
def cachedMemberEqMember (cached : CachedMember) (member : Member) : Bool :=
  decide (cached = toCachedMember cached.guild_id member)

structure CachedPresence where
  user_id : UserId
  payload : Nat
deriving DecidableEq

structure CachedMessage where
  id : MessageId
  payload : Nat
deriving DecidableEq

structure VoiceState where
  channel_id : Option ChannelId
  guild_id : Option GuildId
  user_id : UserId
  payload : Nat
deriving DecidableEq

/-- The guild snapshot consumed by `cache_guild`.  The scalar fields copied
one-by-one into `CachedGuild` are grouped into `payload`; `presences` are
carried already in cached form (the source maps the raw list through
`CachedPresence::from` of the external `model` module). -/
structure Guild where
  id : GuildId
  channels : List GuildChannel
  emojis : List Emoji
  members : List Member
  presences : List CachedPresence
  roles : List Role
  stage_instances : List StageInstance
  voice_states : List VoiceState
  unavailable : Bool
  payload : Nat
deriving DecidableEq

structure CachedGuild where
  id : GuildId
  unavailable : Bool
  payload : Nat
deriving DecidableEq

/-- The `CachedGuild { id: guild.id, ... }` construction of `cache_guild`. -/
def toCachedGuild (guild : Guild) : CachedGuild :=
  { id := guild.id, unavailable := guild.unavailable, payload := guild.payload }

/-! ## Configuration (resource gate) -/

/-- Modelled from the spec: the bitset of enabled entity categories held by the
configuration (`src/cache/in-memory/src/config.rs` is not among the provided
sources).  §4.7: "Holds a bitset of enabled entity categories"; the variants
are the categories `cache_guild` and the glossary name. -/
inductive ResourceType
  | channel
  | emoji
  | guild
  | integration
  | member
  | message
  | presence
  | role
  | stage_instance
  | user
  | voice_state
deriving DecidableEq

/-- Modelled from the spec: the cache configuration
(`src/cache/in-memory/src/config.rs` is not among the provided sources).
§6: "a builder accepting (a) the set of entity categories to cache
(default: all), (b) the maximum number of messages retained per channel
(default: a small fixed count)". -/
structure Config where
  resource_types : List ResourceType
  message_cache_size : Nat
deriving DecidableEq

/-- Modelled from the spec: the default configuration enables every
category (§6 "default: all"). -/
def defaultConfig : Config :=
  { resource_types :=
      [.channel, .emoji, .guild, .integration, .member, .message, .presence,
       .role, .stage_instance, .user, .voice_state]
    message_cache_size := 100 }

/-! ## Cache state (`InMemoryCacheRef`) -/

structure GuildItem (T : Type) where
  data : T
  guild_id : GuildId
deriving DecidableEq

@[ext]
structure CacheState where
  config : Config
  channels_guild : List (ChannelId × GuildItem GuildChannel) := []
  channels_private : List (ChannelId × PrivateChannel) := []
  current_user : Option CurrentUser := none
  emojis : List (EmojiId × GuildItem CachedEmoji) := []
  groups : List (ChannelId × Group) := []
  guilds : List (GuildId × CachedGuild) := []
  guild_channels : List (GuildId × List ChannelId) := []
  guild_emojis : List (GuildId × List EmojiId) := []
  guild_integrations : List (GuildId × List IntegrationId) := []
  guild_members : List (GuildId × List UserId) := []
  guild_presences : List (GuildId × List UserId) := []
  guild_roles : List (GuildId × List RoleId) := []
  guild_stage_instances : List (GuildId × List StageId) := []
  integrations : List ((GuildId × IntegrationId) × GuildItem GuildIntegration) := []
  members : List ((GuildId × UserId) × CachedMember) := []
  messages : List (ChannelId × List CachedMessage) := []
  presences : List ((GuildId × UserId) × CachedPresence) := []
  roles : List (RoleId × GuildItem Role) := []
  stage_instances : List (StageId × GuildItem StageInstance) := []
  unavailable_guilds : List GuildId := []
  users : List (UserId × (User × List GuildId)) := []
  voice_state_channels : List (ChannelId × List (GuildId × UserId)) := []
  voice_state_guilds : List (GuildId × List UserId) := []
  voice_states : List ((GuildId × UserId) × VoiceState) := []
deriving DecidableEq

/-- `InMemoryCache::new` / `Default`, with a chosen configuration
(`new_with_config`). -/
def emptyCache : CacheState :=
  { config := defaultConfig }

/-- `InMemoryCache::wants`: whether the configured cache processes a given
resource category. -/
def wants (s : CacheState) (resource_type : ResourceType) : Prop :=
  resource_type ∈ s.config.resource_types

instance (s : CacheState) (rt : ResourceType) : Decidable (wants s rt) := by
  unfold wants
  infer_instance

/-! ## Mutation operations (private `impl InMemoryCache` methods)

Each Rust method mutates a fixed set of tables; it is modelled as a single
record update whose field values are computed by pure functions of the
tables read. -/

/-- `fn upsert_guild_item`: no-op when the occupied entry holds an equal
value, otherwise write the wrapped value. -/
def upsert_guild_item {K V : Type} [DecidableEq K] [DecidableEq V]
    (map : List (K × GuildItem V)) (guild_id : GuildId) (key : K) (value : V) :
    List (K × GuildItem V) :=
  match mapLookup key map with
  | some item =>
    if item.data = value then map else mapInsert key { data := value, guild_id := guild_id } map
  | none => mapInsert key { data := value, guild_id := guild_id } map

/-- `fn upsert_item`: plain insert. -/
def upsert_item {K V : Type} [DecidableEq K] (map : List (K × V)) (k : K) (v : V) :
    List (K × V) :=
  mapInsert k v map

/-- `fn cache_current_user`: `replace` the guarded singleton slot. -/
def cache_current_user (current_user : CurrentUser) (s : CacheState) : CacheState :=
  { s with current_user := some current_user }

/-- The `users` table transition of `fn cache_user`: an existing value-equal
record only gains a guild reference; otherwise the incoming value is stored
iff a guild context is present, with the reference set seeded to it. -/
def users_upsert (user : User) (guild_id : Option GuildId)
    (users : List (UserId × (User × List GuildId))) :
    List (UserId × (User × List GuildId)) :=
  match mapLookup user.id users with
  | some (u, guild_id_set) =>
    if u = user then
      match guild_id with
      | some g => mapInsert user.id (u, setInsert g guild_id_set) users
      | none => users
    else
      match guild_id with
      | some g => mapInsert user.id (user, [g]) users
      | none => users
  | none =>
    match guild_id with
    | some g => mapInsert user.id (user, [g]) users
    | none => users

/-- `fn cache_user`. -/
def cache_user (user : User) (guild_id : Option GuildId) (s : CacheState) : CacheState :=
  { s with users := users_upsert user guild_id s.users }

/-- `fn cache_guild_channel`: inject the owning guild id into the channel,
index it under the guild, and upsert the primary entry. -/
def cache_guild_channel (guild_id : GuildId) (channel : GuildChannel) (s : CacheState) :
    CacheState :=
  let channel' := channel.withGuildId guild_id
  let id := channel'.id
  { s with
    guild_channels := entryInsert s.guild_channels guild_id id
    channels_guild := upsert_guild_item s.channels_guild guild_id id channel' }

/-- `fn cache_guild_channels`. -/
def cache_guild_channels (guild_id : GuildId) (guild_channels : List GuildChannel)
    (s : CacheState) : CacheState :=
  guild_channels.foldl (fun s channel => cache_guild_channel guild_id channel s) s

/-- The `match self.0.emojis.get(&emoji.id) { Some(e) if e.data == emoji =>
return, ... }` short-circuit check of `fn cache_emoji`. -/
def emojiSkip (emoji : Emoji) (emojis : List (EmojiId × GuildItem CachedEmoji)) : Bool :=
  match mapLookup emoji.id emojis with
  | some cached_emoji => cachedEmojiEqEmoji cached_emoji.data emoji
  | none => false

/-- `fn cache_emoji`: skip when an equal cached value exists; otherwise cache
the uploader user (if any), write the primary entry, then the guild index. -/
def cache_emoji (guild_id : GuildId) (emoji : Emoji) (s : CacheState) : CacheState :=
  if emojiSkip emoji s.emojis then s
  else
    let s1 :=
      match emoji.user with
      | some user => cache_user user (some guild_id) s
      | none => s
    let cached := toCachedEmoji emoji
    { s1 with
      emojis := mapInsert cached.id { data := cached, guild_id := guild_id } s1.emojis
      guild_emojis := entryInsert s1.guild_emojis guild_id emoji.id }

/-- The removal phase of `fn cache_emojis`: when the guild has an emoji
index, drop the indexed ids absent from the incoming collection from both
the index set and the primary table. -/
def emojis_removal_phase (guild_id : GuildId) (emojis : List Emoji) (s : CacheState) :
    CacheState :=
  match mapLookup guild_id s.guild_emojis with
  | some guild_emojis_set =>
    let incoming : List EmojiId := emojis.map (fun e => e.id)
    let removal_filter : List EmojiId :=
      guild_emojis_set.filter (fun e => decide (e ∉ incoming))
    { s with
      guild_emojis :=
        mapInsert guild_id
          (removal_filter.foldl (fun acc e => setErase e acc) guild_emojis_set)
          s.guild_emojis
      emojis := removal_filter.foldl (fun acc e => mapErase e acc) s.emojis }
  | none => s

/-- `fn cache_emojis`: run the removal phase, then upsert every incoming
emoji. -/
def cache_emojis (guild_id : GuildId) (emojis : List Emoji) (s : CacheState) : CacheState :=
  emojis.foldl (fun s emoji => cache_emoji guild_id emoji s)
    (emojis_removal_phase guild_id emojis s)

/-- `fn cache_group`. -/
def cache_group (group : Group) (s : CacheState) : CacheState :=
  { s with groups := upsert_item s.groups group.id group }

/-- `fn cache_member`: skip when an equal cached member exists; otherwise
cache the user, write the member record and the guild member index. -/
def memberSkip (guild_id : GuildId) (member : Member)
    (members : List ((GuildId × UserId) × CachedMember)) : Bool :=
  match mapLookup (guild_id, member.user.id) members with
  | some m => cachedMemberEqMember m member
  | none => false

def cache_member (guild_id : GuildId) (member : Member) (s : CacheState) : CacheState :=
  let id := (guild_id, member.user.id)
  if memberSkip guild_id member s.members then s
  else
    let s1 := cache_user member.user (some guild_id) s
    { s1 with
      members := mapInsert id (toCachedMember guild_id member) s1.members
      guild_members := entryInsert s1.guild_members guild_id member.user.id }

/-- `fn cache_members`. -/
def cache_members (guild_id : GuildId) (members : List Member) (s : CacheState) : CacheState :=
  members.foldl (fun s member => cache_member guild_id member s) s

/-- `fn cache_presence`. -/
def cache_presence (guild_id : GuildId) (presence : CachedPresence) (s : CacheState) :
    CacheState :=
  { s with presences := mapInsert (guild_id, presence.user_id) presence s.presences }

/-- `fn cache_presences`. -/
def cache_presences (guild_id : GuildId) (presences : List CachedPresence) (s : CacheState) :
    CacheState :=
  presences.foldl (fun s presence => cache_presence guild_id presence s) s

/-- `fn cache_private_channel`. -/
def cache_private_channel (private_channel : PrivateChannel) (s : CacheState) : CacheState :=
  { s with
    channels_private := mapInsert private_channel.id private_channel s.channels_private }

/-- `fn cache_role`: index the role under the guild, then upsert the primary
entry. -/
def cache_role (guild_id : GuildId) (role : Role) (s : CacheState) : CacheState :=
  { s with
    guild_roles := entryInsert s.guild_roles guild_id role.id
    roles := upsert_guild_item s.roles guild_id role.id role }

/-- `fn cache_roles`. -/
def cache_roles (guild_id : GuildId) (roles : List Role) (s : CacheState) : CacheState :=
  roles.foldl (fun s role => cache_role guild_id role s) s

/-- `fn cache_stage_instance`. -/
def cache_stage_instance (guild_id : GuildId) (stage_instance : StageInstance)
    (s : CacheState) : CacheState :=
  { s with
    guild_stage_instances := entryInsert s.guild_stage_instances guild_id stage_instance.id
    stage_instances :=
      upsert_guild_item s.stage_instances guild_id stage_instance.id stage_instance }

/-- `fn cache_stage_instances`. -/
def cache_stage_instances (guild_id : GuildId) (stage_instances : List StageInstance)
    (s : CacheState) : CacheState :=
  stage_instances.foldl (fun s si => cache_stage_instance guild_id si s) s

/-- `fn cache_integration`. -/
def cache_integration (guild_id : GuildId) (integration : GuildIntegration)
    (s : CacheState) : CacheState :=
  { s with
    guild_integrations := entryInsert s.guild_integrations guild_id integration.id
    integrations :=
      upsert_guild_item s.integrations guild_id (guild_id, integration.id) integration }

/-- The `get_mut` / `remove` / prune-if-empty shape shared by the two removal
blocks of `fn cache_voice_state`: remove `a` from the membership set stored
under `k`, then drop the entry entirely if the set became empty (the
`unwrap_or_default` treats a missing entry as a no-op). -/
def setRemovePrune {K A : Type} [DecidableEq K] [DecidableEq A] (k : K) (a : A)
    (m : List (K × List A)) : List (K × List A) :=
  match mapLookup k m with
  | some set =>
    let removed := setErase a set
    let m' := mapInsert k removed m
    if removed.isEmpty then mapErase k m' else m'
  | none => m

/-- The first block of `fn cache_voice_state` restricted to the
`voice_state_channels` table: when the pair has a cached record pointing at a
channel, remove the pair from that channel's connected set, dropping the
entry entirely if the set became empty. -/
def voice_channels_cleanup (key : GuildId × UserId) (channel_id : ChannelId)
    (channels : List (ChannelId × List (GuildId × UserId))) :
    List (ChannelId × List (GuildId × UserId)) :=
  setRemovePrune channel_id key channels

/-- The channel-cleanup phase of `fn cache_voice_state` (the
"Check if the user is switching channels" block): keyed off the previous
cached record. -/
def voice_channels_phase (key : GuildId × UserId)
    (states : List ((GuildId × UserId) × VoiceState))
    (channels : List (ChannelId × List (GuildId × UserId))) :
    List (ChannelId × List (GuildId × UserId)) :=
  match mapLookup key states with
  | some voice_state =>
    match voice_state.channel_id with
    | some channel_id => voice_channels_cleanup key channel_id channels
    | none => channels
  | none => channels

/-- The channel-cleanup phase of `fn cache_voice_state` as a state
transition. -/
def voice_cleanup_old_channel (guild_id : GuildId) (user_id : UserId) (s : CacheState) :
    CacheState :=
  { s with
    voice_state_channels :=
      voice_channels_phase (guild_id, user_id) s.voice_states s.voice_state_channels }

/-- The guild-set removal of the disconnect branch of `fn cache_voice_state`:
remove the user from the guild's connected set, dropping the entry entirely
if the set became empty. -/
def voice_guild_remove (guild_id : GuildId) (user_id : UserId)
    (guilds : List (GuildId × List UserId)) : List (GuildId × List UserId) :=
  setRemovePrune guild_id user_id guilds

/-- `fn cache_voice_state`: drop records without a guild id; clean up the
previously recorded channel; on a disconnect signal remove the guild-set
entry and the global record and return; otherwise overwrite the record and
insert into the guild and channel connected sets. -/
def cache_voice_state (voice_state : VoiceState) (s : CacheState) : CacheState :=
  match voice_state.guild_id with
  | none => s
  | some guild_id =>
    let user_id := voice_state.user_id
    let s1 := voice_cleanup_old_channel guild_id user_id s
    match voice_state.channel_id with
    | none =>
      { s1 with
        voice_state_guilds := voice_guild_remove guild_id user_id s1.voice_state_guilds
        voice_states := mapErase (guild_id, user_id) s1.voice_states }
    | some channel_id =>
      { s1 with
        voice_states := mapInsert (guild_id, user_id) voice_state s1.voice_states
        voice_state_guilds := entryInsert s1.voice_state_guilds guild_id user_id
        voice_state_channels :=
          entryInsert s1.voice_state_channels channel_id (guild_id, user_id) }

/-- `fn cache_voice_states`. -/
def cache_voice_states (voice_states : List VoiceState) (s : CacheState) : CacheState :=
  voice_states.foldl (fun s voice_state => cache_voice_state voice_state s) s

/-- `fn cache_guild`: seed the membership-set containers for the enabled
categories, cache the snapshot's children, then store the cached guild
scalar record and drop the unavailable marker. -/
def cache_guild (guild : Guild) (s : CacheState) : CacheState :=
  let s1 :=
    if wants s .channel then
      cache_guild_channels guild.id guild.channels
        { s with guild_channels := mapInsert guild.id [] s.guild_channels }
    else s
  let s2 :=
    if wants s1 .emoji then
      cache_emojis guild.id guild.emojis
        { s1 with guild_emojis := mapInsert guild.id [] s1.guild_emojis }
    else s1
  let s3 :=
    if wants s2 .member then
      cache_members guild.id guild.members
        { s2 with guild_members := mapInsert guild.id [] s2.guild_members }
    else s2
  let s4 :=
    if wants s3 .presence then
      cache_presences guild.id guild.presences
        { s3 with guild_presences := mapInsert guild.id [] s3.guild_presences }
    else s3
  let s5 :=
    if wants s4 .role then
      cache_roles guild.id guild.roles
        { s4 with guild_roles := mapInsert guild.id [] s4.guild_roles }
    else s4
  let s6 :=
    if wants s5 .voice_state then
      cache_voice_states guild.voice_states
        { s5 with voice_state_guilds := mapInsert guild.id [] s5.voice_state_guilds }
    else s5
  let s7 :=
    if wants s6 .stage_instance then
      cache_stage_instances guild.id guild.stage_instances
        { s6 with
          guild_stage_instances := mapInsert guild.id [] s6.guild_stage_instances }
    else s6
  { s7 with
    unavailable_guilds := setErase guild.id s7.unavailable_guilds
    guilds := mapInsert guild.id (toCachedGuild guild) s7.guilds }

/-- `fn delete_group`. -/
def delete_group (channel_id : ChannelId) (s : CacheState) : CacheState :=
  { s with groups := mapErase channel_id s.groups }

/-- `fn unavailable_guild`. -/
def unavailable_guild (guild_id : GuildId) (s : CacheState) : CacheState :=
  { s with
    unavailable_guilds := setInsert guild_id s.unavailable_guilds
    guilds := mapErase guild_id s.guilds }

/-- `fn delete_guild_channel`: remove the primary entry; when one was removed,
delete the channel id from its recorded guild's channel set. -/
def delete_guild_channel (channel_id : ChannelId) (s : CacheState) : CacheState :=
  match mapLookup channel_id s.channels_guild with
  | some item =>
    { s with
      channels_guild := mapErase channel_id s.channels_guild
      guild_channels :=
        match mapLookup item.guild_id s.guild_channels with
        | some guild_channels =>
          mapInsert item.guild_id (setErase channel_id guild_channels) s.guild_channels
        | none => s.guild_channels }
  | none => s

/-- `fn delete_integration`. -/
def delete_integration (guild_id : GuildId) (integration_id : IntegrationId)
    (s : CacheState) : CacheState :=
  match mapLookup (guild_id, integration_id) s.integrations with
  | some _ =>
    { s with
      integrations := mapErase (guild_id, integration_id) s.integrations
      guild_integrations :=
        match mapLookup guild_id s.guild_integrations with
        | some integrations =>
          mapInsert guild_id (setErase integration_id integrations) s.guild_integrations
        | none => s.guild_integrations }
  | none => s

/-- `fn delete_role`. -/
def delete_role (role_id : RoleId) (s : CacheState) : CacheState :=
  match mapLookup role_id s.roles with
  | some role =>
    { s with
      roles := mapErase role_id s.roles
      guild_roles :=
        match mapLookup role.guild_id s.guild_roles with
        | some roles => mapInsert role.guild_id (setErase role_id roles) s.guild_roles
        | none => s.guild_roles }
  | none => s

/-- `fn delete_stage_instance`. -/
def delete_stage_instance (stage_id : StageId) (s : CacheState) : CacheState :=
  match mapLookup stage_id s.stage_instances with
  | some item =>
    { s with
      stage_instances := mapErase stage_id s.stage_instances
      guild_stage_instances :=
        match mapLookup item.guild_id s.guild_stage_instances with
        | some si => mapInsert item.guild_id (setErase stage_id si) s.guild_stage_instances
        | none => s.guild_stage_instances }
  | none => s

/-! ## The read API and lifecycle operations (`impl InMemoryCache`) -/

namespace InMemoryCache

/-- `InMemoryCache::config`. -/
def config (s : CacheState) : Config :=
  s.config

/-- `InMemoryCache::guild_channel`. -/
def guild_channel (s : CacheState) (channel_id : ChannelId) : Option GuildChannel :=
  (mapLookup channel_id s.channels_guild).map (fun r => r.data)

/-- `InMemoryCache::current_user`. -/
def current_user (s : CacheState) : Option CurrentUser :=
  s.current_user

/-- `InMemoryCache::emoji`. -/
def emoji (s : CacheState) (emoji_id : EmojiId) : Option CachedEmoji :=
  (mapLookup emoji_id s.emojis).map (fun r => r.data)

/-- `InMemoryCache::group`. -/
def group (s : CacheState) (channel_id : ChannelId) : Option Group :=
  mapLookup channel_id s.groups

/-- `InMemoryCache::guild`. -/
def guild (s : CacheState) (guild_id : GuildId) : Option CachedGuild :=
  mapLookup guild_id s.guilds

/-- `InMemoryCache::guild_channels`. -/
def guild_channels (s : CacheState) (guild_id : GuildId) : Option (List ChannelId) :=
  mapLookup guild_id s.guild_channels

/-- `InMemoryCache::guild_emojis`. -/
def guild_emojis (s : CacheState) (guild_id : GuildId) : Option (List EmojiId) :=
  mapLookup guild_id s.guild_emojis

/-- `InMemoryCache::member`. -/
def member (s : CacheState) (guild_id : GuildId) (user_id : UserId) : Option CachedMember :=
  mapLookup (guild_id, user_id) s.members

/-- `InMemoryCache::message`. -/
def message (s : CacheState) (channel_id : ChannelId) (message_id : MessageId) :
    Option CachedMessage :=
  (mapLookup channel_id s.messages).bind
    (fun channel => channel.find? (fun msg => decide (msg.id = message_id)))

/-- `InMemoryCache::presence`. -/
def presence (s : CacheState) (guild_id : GuildId) (user_id : UserId) :
    Option CachedPresence :=
  mapLookup (guild_id, user_id) s.presences

/-- `InMemoryCache::private_channel`. -/
def private_channel (s : CacheState) (channel_id : ChannelId) : Option PrivateChannel :=
  mapLookup channel_id s.channels_private

/-- `InMemoryCache::role`. -/
def role (s : CacheState) (role_id : RoleId) : Option Role :=
  (mapLookup role_id s.roles).map (fun r => r.data)

/-- `InMemoryCache::stage_instance`. -/
def stage_instance (s : CacheState) (stage_id : StageId) : Option StageInstance :=
  (mapLookup stage_id s.stage_instances).map (fun r => r.data)

/-- `InMemoryCache::user`. -/
def user (s : CacheState) (user_id : UserId) : Option User :=
  (mapLookup user_id s.users).map (fun r => r.1)

/-- `InMemoryCache::voice_state`. -/
def voice_state (s : CacheState) (user_id : UserId) (guild_id : GuildId) :
    Option VoiceState :=
  mapLookup (guild_id, user_id) s.voice_states

/-- `InMemoryCache::clear`: empty every table and take the current user,
keeping the configuration. The source body is a field-by-field list of
`.clear()` calls that omits `self.0.stage_instances.clear()` (only the
`guild_stage_instances` index is cleared), so the stage-instance primary
table survives a clear. -/
def clear (s : CacheState) : CacheState :=
  { config := s.config, stage_instances := s.stage_instances }

end InMemoryCache

/-! ## Invariants -/

/-- A condition on the value stored under a key, vacuous when absent. -/
def optAll {α : Type} (o : Option α) (P : α → Prop) : Prop :=
  match o with
  | some a => P a
  | none => True

instance optAll.instDecidable {α : Type} (o : Option α) (P : α → Prop)
    [DecidablePred P] : Decidable (optAll o P) :=
  match o with
  | some a => inferInstanceAs (Decidable (P a))
  | none => isTrue trivial

theorem optAll_some {α : Type} {a : α} {P : α → Prop} (h : optAll (some a) P) : P a := h

theorem optAll_intro {α : Type} {o : Option α} {P : α → Prop}
    (h : ∀ a, o = some a → P a) : optAll o P := by
  cases o with
  | none => trivial
  | some a => exact h a rfl

/-- The channel a pair's record in a voice-state table points at, if any. -/
def recordChannelOf (states : List ((GuildId × UserId) × VoiceState))
    (p : GuildId × UserId) : Option ChannelId :=
  (mapLookup p states).bind (fun vs => vs.channel_id)

/-- The channel the cached voice-state record of a pair points at, if any. -/
def recordChannel (s : CacheState) (p : GuildId × UserId) : Option ChannelId :=
  recordChannelOf s.voice_states p

/-- The three-way voice-state consistency condition on the three voice
tables: a pair with a global record is in its guild's connected set and,
when the record carries a channel, in exactly that channel's connected set;
members of index sets always have a backing record; no index entry holds an
empty set. -/
def voiceTablesInv (states : List ((GuildId × UserId) × VoiceState))
    (guilds : List (GuildId × List UserId))
    (channels : List (ChannelId × List (GuildId × UserId))) : Prop :=
  (∀ p ∈ keysOf states,
    p.2 ∈ setLookup guilds p.1 ∧
    optAll (recordChannelOf states p) (fun c => p ∈ setLookup channels c)) ∧
  (∀ g ∈ keysOf guilds,
    setLookup guilds g ≠ [] ∧
    ∀ u ∈ setLookup guilds g, (mapLookup (g, u) states).isSome = true) ∧
  (∀ c ∈ keysOf channels,
    setLookup channels c ≠ [] ∧
    ∀ p ∈ setLookup channels c, recordChannelOf states p = some c)

/-- The voice-state consistency invariant (§3 invariant 3) of a cache
state. -/
def voiceInv (s : CacheState) : Prop :=
  voiceTablesInv s.voice_states s.voice_state_guilds s.voice_state_channels

instance voiceTablesInv.instDecidable (states : List ((GuildId × UserId) × VoiceState))
    (guilds : List (GuildId × List UserId))
    (channels : List (ChannelId × List (GuildId × UserId))) :
    Decidable (voiceTablesInv states guilds channels) := by
  unfold voiceTablesInv
  infer_instance

instance voiceInv.instDecidable (s : CacheState) : Decidable (voiceInv s) := by
  unfold voiceInv
  infer_instance

/-- The backward guild-scope coherence condition for one category: every
primary entry's key is a member of the membership set of its recorded owning
guild. -/
def giCoherent {K A V : Type} [DecidableEq K] [DecidableEq A] (proj : K → A)
    (primary : List (K × GuildItem V)) (index : List (GuildId × List A)) : Prop :=
  ∀ k ∈ keysOf primary,
    optAll (mapLookup k primary) (fun item => proj k ∈ setLookup index item.guild_id)

/-- Integrations are keyed by `(guild_id, integration_id)` with the wrapper
recording the same guild. -/
def integrationsKeyedT
    (m : List ((GuildId × IntegrationId) × GuildItem GuildIntegration)) : Prop :=
  ∀ k ∈ keysOf m, optAll (mapLookup k m) (fun item => item.guild_id = k.1)

def integrationsKeyed (s : CacheState) : Prop :=
  integrationsKeyedT s.integrations

/-- Backward guild-scope coherence for all five guild-scoped categories. -/
def guildScopedCoherent (s : CacheState) : Prop :=
  giCoherent (fun k => k) s.channels_guild s.guild_channels ∧
  giCoherent (fun k => k) s.emojis s.guild_emojis ∧
  giCoherent (fun k => k) s.roles s.guild_roles ∧
  giCoherent (fun k => k) s.stage_instances s.guild_stage_instances ∧
  giCoherent (fun k => Prod.snd k) s.integrations s.guild_integrations ∧
  integrationsKeyed s

instance giCoherent.instDecidable {K A V : Type} [DecidableEq K] [DecidableEq A]
    (proj : K → A) (primary : List (K × GuildItem V)) (index : List (GuildId × List A)) :
    Decidable (giCoherent proj primary index) := by
  unfold giCoherent
  infer_instance

instance guildScopedCoherent.instDecidable (s : CacheState) :
    Decidable (guildScopedCoherent s) := by
  unfold guildScopedCoherent integrationsKeyed integrationsKeyedT
  infer_instance

/-! ## Sequences of guild-scoped mutations -/

/-- The single-entity guild-scoped upsert and delete entry points, the bulk
emoji refresh, and the cache-wide clear. -/
inductive Mut
  | mChannel (guild_id : GuildId) (channel : GuildChannel)
  | mEmoji (guild_id : GuildId) (emoji : Emoji)
  | mEmojiBulk (guild_id : GuildId) (emojis : List Emoji)
  | mRole (guild_id : GuildId) (role : Role)
  | mStage (guild_id : GuildId) (stage_instance : StageInstance)
  | mIntegration (guild_id : GuildId) (integration : GuildIntegration)
  | mDeleteChannel (channel_id : ChannelId)
  | mDeleteRole (role_id : RoleId)
  | mDeleteStage (stage_id : StageId)
  | mDeleteIntegration (guild_id : GuildId) (integration_id : IntegrationId)
  | mClear
deriving DecidableEq

def applyMut : Mut → CacheState → CacheState
  | .mChannel g channel, s => cache_guild_channel g channel s
  | .mEmoji g emoji, s => cache_emoji g emoji s
  | .mEmojiBulk g emojis, s => cache_emojis g emojis s
  | .mRole g role, s => cache_role g role s
  | .mStage g stage_instance, s => cache_stage_instance g stage_instance s
  | .mIntegration g integration, s => cache_integration g integration s
  | .mDeleteChannel channel_id, s => delete_guild_channel channel_id s
  | .mDeleteRole role_id, s => delete_role role_id s
  | .mDeleteStage stage_id, s => delete_stage_instance stage_id s
  | .mDeleteIntegration g integration_id, s => delete_integration g integration_id s
  | .mClear, s => InMemoryCache.clear s

def applyMuts (muts : List Mut) (s : CacheState) : CacheState :=
  muts.foldl (fun s m => applyMut m s) s

/-! ## Extensional state equivalence

Two states are equivalent when every table holds the same key/value mapping;
membership-set values are compared as sets (a `HashSet` carries no order),
and presence of an index entry is part of the comparison (`Some(empty)` is
distinguishable from `None`). -/

def mapEqv {K V : Type} [DecidableEq K] (m1 m2 : List (K × V)) : Prop :=
  ∀ k, mapLookup k m1 = mapLookup k m2

def setMapEqv {K A : Type} [DecidableEq K] (m1 m2 : List (K × List A)) : Prop :=
  ∀ k, (mapLookup k m1).isSome = (mapLookup k m2).isSome ∧
    ∀ a, a ∈ setLookup m1 k ↔ a ∈ setLookup m2 k

def listSetEqv {A : Type} (s1 s2 : List A) : Prop :=
  ∀ a, a ∈ s1 ↔ a ∈ s2

def StateEquiv (s t : CacheState) : Prop :=
  s.config = t.config ∧
  mapEqv s.channels_guild t.channels_guild ∧
  mapEqv s.channels_private t.channels_private ∧
  s.current_user = t.current_user ∧
  mapEqv s.emojis t.emojis ∧
  mapEqv s.groups t.groups ∧
  mapEqv s.guilds t.guilds ∧
  setMapEqv s.guild_channels t.guild_channels ∧
  setMapEqv s.guild_emojis t.guild_emojis ∧
  setMapEqv s.guild_integrations t.guild_integrations ∧
  setMapEqv s.guild_members t.guild_members ∧
  setMapEqv s.guild_presences t.guild_presences ∧
  setMapEqv s.guild_roles t.guild_roles ∧
  setMapEqv s.guild_stage_instances t.guild_stage_instances ∧
  mapEqv s.integrations t.integrations ∧
  mapEqv s.members t.members ∧
  mapEqv s.messages t.messages ∧
  mapEqv s.presences t.presences ∧
  mapEqv s.roles t.roles ∧
  mapEqv s.stage_instances t.stage_instances ∧
  listSetEqv s.unavailable_guilds t.unavailable_guilds ∧
  mapEqv s.users t.users ∧
  setMapEqv s.voice_state_channels t.voice_state_channels ∧
  setMapEqv s.voice_state_guilds t.voice_state_guilds ∧
  mapEqv s.voice_states t.voice_states

theorem mapEqv_refl {K V : Type} [DecidableEq K] (m : List (K × V)) : mapEqv m m :=
  fun _ => rfl

theorem setMapEqv_refl {K A : Type} [DecidableEq K] (m : List (K × List A)) :
    setMapEqv m m :=
  fun _ => ⟨rfl, fun _ => Iff.rfl⟩

theorem listSetEqv_refl {A : Type} (s : List A) : listSetEqv s s :=
  fun _ => Iff.rfl

theorem StateEquiv.refl (s : CacheState) : StateEquiv s s := by
  refine ⟨rfl, ?_, ?_, rfl, ?_, ?_, ?_, ?_, ?_, ?_, ?_, ?_, ?_, ?_, ?_, ?_, ?_, ?_,
    ?_, ?_, ?_, ?_, ?_, ?_, ?_⟩ <;>
    first
      | exact mapEqv_refl _
      | exact setMapEqv_refl _
      | exact listSetEqv_refl _

theorem StateEquiv.of_eq {s t : CacheState} (h : s = t) : StateEquiv s t := by
  subst h
  exact StateEquiv.refl s

/-! ## Claim C1 -/

/-- Claim C1 is false of the program (code bug): `InMemoryCache::clear`
clears every table except the `stage_instances` primary table — its body
omits `self.0.stage_instances.clear()` while clearing the
`guild_stage_instances` index — so after a clear the stage-instance table
can report a non-zero count and `stage_instance` point lookups can still
return the previously cached value. Every other table does report zero
entries and every other point lookup returns absent, for every preceding
state. -/
theorem C1_clear_misses_stage_instances :
    (∀ s : CacheState,
      (InMemoryCache.clear s).channels_guild.length = 0 ∧
      (InMemoryCache.clear s).channels_private.length = 0 ∧
      (InMemoryCache.clear s).current_user = none ∧
      (InMemoryCache.clear s).emojis.length = 0 ∧
      (InMemoryCache.clear s).groups.length = 0 ∧
      (InMemoryCache.clear s).guilds.length = 0 ∧
      (InMemoryCache.clear s).guild_channels.length = 0 ∧
      (InMemoryCache.clear s).guild_emojis.length = 0 ∧
      (InMemoryCache.clear s).guild_integrations.length = 0 ∧
      (InMemoryCache.clear s).guild_members.length = 0 ∧
      (InMemoryCache.clear s).guild_presences.length = 0 ∧
      (InMemoryCache.clear s).guild_roles.length = 0 ∧
      (InMemoryCache.clear s).guild_stage_instances.length = 0 ∧
      (InMemoryCache.clear s).integrations.length = 0 ∧
      (InMemoryCache.clear s).members.length = 0 ∧
      (InMemoryCache.clear s).messages.length = 0 ∧
      (InMemoryCache.clear s).presences.length = 0 ∧
      (InMemoryCache.clear s).roles.length = 0 ∧
      (InMemoryCache.clear s).unavailable_guilds.length = 0 ∧
      (InMemoryCache.clear s).users.length = 0 ∧
      (InMemoryCache.clear s).voice_state_channels.length = 0 ∧
      (InMemoryCache.clear s).voice_state_guilds.length = 0 ∧
      (InMemoryCache.clear s).voice_states.length = 0 ∧
      (∀ c, InMemoryCache.guild_channel (InMemoryCache.clear s) c = none) ∧
      (∀ e, InMemoryCache.emoji (InMemoryCache.clear s) e = none) ∧
      (∀ c, InMemoryCache.group (InMemoryCache.clear s) c = none) ∧
      (∀ g, InMemoryCache.guild (InMemoryCache.clear s) g = none) ∧
      (∀ g u, InMemoryCache.member (InMemoryCache.clear s) g u = none) ∧
      (∀ c m, InMemoryCache.message (InMemoryCache.clear s) c m = none) ∧
      (∀ g u, InMemoryCache.presence (InMemoryCache.clear s) g u = none) ∧
      (∀ c, InMemoryCache.private_channel (InMemoryCache.clear s) c = none) ∧
      (∀ r, InMemoryCache.role (InMemoryCache.clear s) r = none) ∧
      (∀ u, InMemoryCache.user (InMemoryCache.clear s) u = none) ∧
      (∀ u g, InMemoryCache.voice_state (InMemoryCache.clear s) u g = none) ∧
      InMemoryCache.current_user (InMemoryCache.clear s) = none) ∧
    (InMemoryCache.clear (cache_stage_instance 1
        { id := 5, channel_id := 2, guild_id := 1, payload := 0 }
        emptyCache)).stage_instances.length ≠ 0 ∧
    InMemoryCache.stage_instance (InMemoryCache.clear (cache_stage_instance 1
        { id := 5, channel_id := 2, guild_id := 1, payload := 0 } emptyCache)) 5 =
      some { id := 5, channel_id := 2, guild_id := 1, payload := 0 } := by
  refine ⟨fun s => ?_, by decide, by decide⟩
  refine ⟨rfl, rfl, rfl, rfl, rfl, rfl, rfl, rfl, rfl, rfl, rfl, rfl, rfl, rfl, rfl,
    rfl, rfl, rfl, rfl, rfl, rfl, rfl, rfl, ?_, ?_, ?_, ?_, ?_, ?_, ?_, ?_, ?_,
    ?_, ?_, rfl⟩ <;> intros <;> rfl

/-! ## Claim C10 -/

/-- Claim C10: the clear operation leaves the cache's configuration
unchanged: for every cache state, the value returned by `config()` after
`clear()` equals the value returned before it, including the enabled
resource-type set and the message-cache size. -/
theorem C10_clear_preserves_config (s : CacheState) :
    InMemoryCache.config (InMemoryCache.clear s) = InMemoryCache.config s ∧
    (InMemoryCache.config (InMemoryCache.clear s)).resource_types =
      (InMemoryCache.config s).resource_types ∧
    (InMemoryCache.config (InMemoryCache.clear s)).message_cache_size =
      (InMemoryCache.config s).message_cache_size :=
  ⟨rfl, rfl, rfl⟩

/-! ## Claim C7 -/

/-- Claim C7: `cache_user(user, maybe_guild_id)`: with a value-equal record
present only the guild-reference set changes (gaining `maybe_guild_id` when
present) and the stored user value is untouched; with no value-equal record
and no guild context the call stores nothing; with no value-equal record and
a guild context the incoming value is stored with the reference set seeded
to exactly that guild. -/
theorem C7_cache_user_cases (s : CacheState) (user : User) (guild_id : Option GuildId) :
    (∀ u0 refs, mapLookup user.id s.users = some (u0, refs) → u0 = user →
      InMemoryCache.user (cache_user user guild_id s) user.id = some u0 ∧
      mapLookup user.id (cache_user user guild_id s).users =
        some (u0, match guild_id with | some g => setInsert g refs | none => refs) ∧
      ∀ k, k ≠ user.id →
        mapLookup k (cache_user user guild_id s).users = mapLookup k s.users) ∧
    ((∀ u0 refs, mapLookup user.id s.users = some (u0, refs) → u0 ≠ user) →
      guild_id = none → cache_user user guild_id s = s) ∧
    ((∀ u0 refs, mapLookup user.id s.users = some (u0, refs) → u0 ≠ user) →
      ∀ g, guild_id = some g →
      mapLookup user.id (cache_user user guild_id s).users = some (user, [g]) ∧
      ∀ k, k ≠ user.id →
        mapLookup k (cache_user user guild_id s).users = mapLookup k s.users) := by
  refine ⟨?_, ?_, ?_⟩
  · intro u0 refs hlook hequ
    subst hequ
    cases guild_id with
    | none =>
      refine ⟨?_, ?_, fun k hk => ?_⟩ <;>
        simp [InMemoryCache.user, cache_user, users_upsert, hlook]
    | some g =>
      refine ⟨?_, ?_, fun k hk => ?_⟩
      · simp [InMemoryCache.user, cache_user, users_upsert, hlook, mapLookup_insert_self]
      · simp [cache_user, users_upsert, hlook, mapLookup_insert_self]
      · simp [cache_user, users_upsert, hlook, mapLookup_insert_ne hk]
  · intro hne hgid
    subst hgid
    unfold cache_user users_upsert
    cases hlook : mapLookup user.id s.users with
    | none => rfl
    | some p =>
      obtain ⟨u0, refs⟩ := p
      have : u0 ≠ user := hne u0 refs hlook
      simp only [this, if_false]
  · intro hne g hgid
    subst hgid
    unfold cache_user users_upsert
    cases hlook : mapLookup user.id s.users with
    | none =>
      exact ⟨mapLookup_insert_self _ _ _, fun k hk => mapLookup_insert_ne hk _ _⟩
    | some p =>
      obtain ⟨u0, refs⟩ := p
      have : u0 ≠ user := hne u0 refs hlook
      simp only [this, if_false]
      exact ⟨mapLookup_insert_self _ _ _, fun k hk => mapLookup_insert_ne hk _ _⟩

/-- Concrete instantiation of `C7_cache_user_cases`: caching a fresh user
with a guild context seeds the reference set with exactly that guild. -/
theorem C7_witness :
    mapLookup 1 (cache_user ⟨1, 0⟩ (some 5) emptyCache).users = some (⟨1, 0⟩, [5]) :=
  ((C7_cache_user_cases emptyCache ⟨1, 0⟩ (some 5)).2.2
    (fun u0 refs h => Option.noConfusion h) 5 rfl).1

/-! ## Idempotence of the single-entity upserts (towards claim C8) -/

theorem setInsert_idem {A : Type} [DecidableEq A] (a : A) (s : List A) :
    setInsert a (setInsert a s) = setInsert a s :=
  setInsert_of_mem (mem_setInsert_self a s)

theorem mapInsert_idem {K V : Type} [DecidableEq K] (k : K) (v : V) (m : List (K × V)) :
    mapInsert k v (mapInsert k v m) = mapInsert k v m :=
  mapInsert_lookup_eq (mapLookup_insert_self k v m)

theorem entryInsert_idem {K A : Type} [DecidableEq K] [DecidableEq A]
    (m : List (K × List A)) (k : K) (a : A) :
    entryInsert (entryInsert m k a) k a = entryInsert m k a :=
  entryInsert_of_mem (mem_setLookup_entryInsert_self m k a)

theorem upsert_guild_item_idem {K V : Type} [DecidableEq K] [DecidableEq V]
    (m : List (K × GuildItem V)) (g : GuildId) (k : K) (v : V) :
    upsert_guild_item (upsert_guild_item m g k v) g k v = upsert_guild_item m g k v := by
  unfold upsert_guild_item
  cases h : mapLookup k m with
  | some item =>
    by_cases hd : item.data = v
    · simp [hd, h]
    · simp [hd, h, mapLookup_insert_self]
  | none => simp [h, mapLookup_insert_self]

theorem users_upsert_idem (user : User) (guild_id : Option GuildId)
    (users : List (UserId × (User × List GuildId))) :
    users_upsert user guild_id (users_upsert user guild_id users) =
      users_upsert user guild_id users := by
  unfold users_upsert
  cases h : mapLookup user.id users with
  | some p =>
    obtain ⟨u, refs⟩ := p
    by_cases hu : u = user
    · subst hu
      cases guild_id with
      | none => simp [h]
      | some g => simp [h, mapLookup_insert_self, setInsert_idem, mapInsert_idem]
    · cases guild_id with
      | none => simp [hu, h]
      | some g =>
        simp only [hu, if_false, mapLookup_insert_self]
        simp [setInsert_of_mem, mapInsert_idem]
  | none =>
    cases guild_id with
    | none => simp [h]
    | some g => simp [h, mapLookup_insert_self, setInsert_of_mem, mapInsert_idem]

theorem cache_user_idem (user : User) (guild_id : Option GuildId) (s : CacheState) :
    cache_user user guild_id (cache_user user guild_id s) = cache_user user guild_id s := by
  simp only [cache_user]
  apply CacheState.ext <;> first | rfl | exact users_upsert_idem _ _ _

theorem cache_guild_channel_idem (guild_id : GuildId) (channel : GuildChannel)
    (s : CacheState) :
    cache_guild_channel guild_id channel (cache_guild_channel guild_id channel s) =
      cache_guild_channel guild_id channel s := by
  simp only [cache_guild_channel]
  apply CacheState.ext <;>
    first
      | rfl
      | exact entryInsert_idem _ _ _
      | exact upsert_guild_item_idem _ _ _ _

theorem cache_role_idem (guild_id : GuildId) (role : Role) (s : CacheState) :
    cache_role guild_id role (cache_role guild_id role s) = cache_role guild_id role s := by
  simp only [cache_role]
  apply CacheState.ext <;>
    first
      | rfl
      | exact entryInsert_idem _ _ _
      | exact upsert_guild_item_idem _ _ _ _

theorem cache_stage_instance_idem (guild_id : GuildId) (stage_instance : StageInstance)
    (s : CacheState) :
    cache_stage_instance guild_id stage_instance
        (cache_stage_instance guild_id stage_instance s) =
      cache_stage_instance guild_id stage_instance s := by
  simp only [cache_stage_instance]
  apply CacheState.ext <;>
    first
      | rfl
      | exact entryInsert_idem _ _ _
      | exact upsert_guild_item_idem _ _ _ _

theorem cache_integration_idem (guild_id : GuildId) (integration : GuildIntegration)
    (s : CacheState) :
    cache_integration guild_id integration (cache_integration guild_id integration s) =
      cache_integration guild_id integration s := by
  simp only [cache_integration]
  apply CacheState.ext <;>
    first
      | rfl
      | exact entryInsert_idem _ _ _
      | exact upsert_guild_item_idem _ _ _ _

theorem cache_presence_idem (guild_id : GuildId) (presence : CachedPresence)
    (s : CacheState) :
    cache_presence guild_id presence (cache_presence guild_id presence s) =
      cache_presence guild_id presence s := by
  simp only [cache_presence]
  apply CacheState.ext <;> first | rfl | exact mapInsert_idem _ _ _

theorem cache_private_channel_idem (private_channel : PrivateChannel) (s : CacheState) :
    cache_private_channel private_channel (cache_private_channel private_channel s) =
      cache_private_channel private_channel s := by
  simp only [cache_private_channel]
  apply CacheState.ext <;> first | rfl | exact mapInsert_idem _ _ _

theorem cachedEmojiEqEmoji_toCachedEmoji (emoji : Emoji) :
    cachedEmojiEqEmoji (toCachedEmoji emoji) emoji = true := by
  simp [cachedEmojiEqEmoji]

theorem cachedMemberEqMember_toCachedMember (guild_id : GuildId) (member : Member) :
    cachedMemberEqMember (toCachedMember guild_id member) member = true := by
  simp [cachedMemberEqMember, toCachedMember]

theorem cache_emoji_skip_after (guild_id : GuildId) (emoji : Emoji) (s : CacheState) :
    emojiSkip emoji (cache_emoji guild_id emoji s).emojis = true := by
  by_cases h : emojiSkip emoji s.emojis = true
  · simp only [cache_emoji]
    rw [if_pos h]
    exact h
  · simp only [cache_emoji]
    rw [if_neg h]
    unfold emojiSkip
    simp [mapLookup_insert_self, toCachedEmoji, cachedEmojiEqEmoji]

theorem cache_emoji_idem (guild_id : GuildId) (emoji : Emoji) (s : CacheState) :
    cache_emoji guild_id emoji (cache_emoji guild_id emoji s) =
      cache_emoji guild_id emoji s := by
  conv_lhs => rw [cache_emoji]
  rw [if_pos (cache_emoji_skip_after guild_id emoji s)]

theorem cache_member_skip_after (guild_id : GuildId) (member : Member) (s : CacheState) :
    memberSkip guild_id member (cache_member guild_id member s).members = true := by
  by_cases h : memberSkip guild_id member s.members = true
  · simp only [cache_member]
    rw [if_pos h]
    exact h
  · simp only [cache_member]
    rw [if_neg h]
    unfold memberSkip
    simp [mapLookup_insert_self, cachedMemberEqMember_toCachedMember]

theorem cache_member_idem (guild_id : GuildId) (member : Member) (s : CacheState) :
    cache_member guild_id member (cache_member guild_id member s) =
      cache_member guild_id member s := by
  conv_lhs => rw [cache_member]
  rw [if_pos (cache_member_skip_after guild_id member s)]

/-! ## Behaviour of the voice-state helpers -/

section RemovePrune

variable {K A : Type} [DecidableEq K] [DecidableEq A]

theorem setRemovePrune_lookup_ne {k' k : K} (h : k' ≠ k) (a : A) (m : List (K × List A)) :
    mapLookup k' (setRemovePrune k a m) = mapLookup k' m := by
  unfold setRemovePrune
  cases hl : mapLookup k m with
  | none => rfl
  | some set =>
    by_cases he : (setErase a set).isEmpty
    · simp [he, mapLookup_erase_ne h, mapLookup_insert_ne h]
    · simp [he, mapLookup_insert_ne h]

theorem setRemovePrune_lookup_self (k : K) (a : A) (m : List (K × List A)) :
    mapLookup k (setRemovePrune k a m) =
      match mapLookup k m with
      | none => none
      | some set => if (setErase a set).isEmpty then none else some (setErase a set) := by
  unfold setRemovePrune
  cases hl : mapLookup k m with
  | none => exact hl
  | some set =>
    by_cases he : (setErase a set).isEmpty
    · simp [he, mapLookup_erase_self]
    · simp [he, mapLookup_insert_self]

theorem setRemovePrune_of_none {k : K} {a : A} {m : List (K × List A)}
    (h : mapLookup k m = none) : setRemovePrune k a m = m := by
  unfold setRemovePrune
  rw [h]

theorem setLookup_setRemovePrune (k : K) (a : A) (m : List (K × List A)) (k' : K) :
    setLookup (setRemovePrune k a m) k' =
      if k' = k then setErase a (setLookup m k') else setLookup m k' := by
  by_cases hc : k' = k
  · subst hc
    rw [if_pos rfl]
    unfold setLookup
    rw [setRemovePrune_lookup_self]
    cases hl : mapLookup k' m with
    | none => rfl
    | some set =>
      dsimp only
      by_cases he : (setErase a set).isEmpty
      · rw [if_pos he]
        simp only [Option.getD_none, Option.getD_some]
        exact (List.isEmpty_iff.mp he).symm
      · rw [if_neg he]
        rfl
  · rw [if_neg hc]
    unfold setLookup
    rw [setRemovePrune_lookup_ne hc]

theorem mem_setLookup_setRemovePrune (k : K) (a : A) (m : List (K × List A))
    (k' : K) (x : A) :
    x ∈ setLookup (setRemovePrune k a m) k' ↔
      x ∈ setLookup m k' ∧ (k' = k → x ≠ a) := by
  rw [setLookup_setRemovePrune]
  by_cases hc : k' = k
  · rw [if_pos hc, mem_setErase_iff]
    constructor
    · rintro ⟨hx, hne⟩
      exact ⟨hx, fun _ => hne⟩
    · rintro ⟨hx, hne⟩
      exact ⟨hx, hne hc⟩
  · rw [if_neg hc]
    constructor
    · intro hx
      exact ⟨hx, fun hh => absurd hh hc⟩
    · rintro ⟨hx, _⟩
      exact hx

theorem not_mem_setLookup_setRemovePrune_self (k : K) (a : A) (m : List (K × List A)) :
    a ∉ setLookup (setRemovePrune k a m) k := by
  intro h
  exact ((mem_setLookup_setRemovePrune k a m k a).mp h).2 rfl rfl

theorem setRemovePrune_prunes {k : K} {a : A} {m : List (K × List A)}
    (h : ∀ x ∈ setLookup m k, x = a) :
    mapLookup k (setRemovePrune k a m) = none := by
  rw [setRemovePrune_lookup_self]
  cases hl : mapLookup k m with
  | none => rfl
  | some set =>
    have hset : setLookup m k = set := by simp [setLookup, hl]
    have hnil : setErase a set = [] := by
      apply setErase_eq_nil_iff.mpr
      intro x hx
      exact h x (by rw [hset]; exact hx)
    simp [hnil]

theorem setRemovePrune_isSome {k' k : K} (a : A) (m : List (K × List A)) :
    (mapLookup k' (setRemovePrune k a m)).isSome = true →
      (mapLookup k' m).isSome = true := by
  intro h
  by_cases hc : k' = k
  · subst hc
    rw [setRemovePrune_lookup_self] at h
    cases hl : mapLookup k' m with
    | none => rw [hl] at h; simp at h
    | some set => simp
  · rwa [setRemovePrune_lookup_ne hc] at h

/-- Removing an absent element from a non-empty stored set is the identity. -/
theorem setRemovePrune_of_not_mem {k : K} {a : A} {set : List A} {m : List (K × List A)}
    (hl : mapLookup k m = some set) (hnm : a ∉ set) (hne : set ≠ []) :
    setRemovePrune k a m = m := by
  unfold setRemovePrune
  rw [hl]
  have hrem : setErase a set = set := setErase_of_not_mem hnm
  have hemp : set.isEmpty = false := by
    cases set with
    | nil => exact absurd rfl hne
    | cons x rest => rfl
  simp only [hrem, hemp, Bool.false_eq_true, if_false]
  exact mapInsert_lookup_eq hl

end RemovePrune

/-! ### Dispatch lemmas for the channel-cleanup phase -/

theorem voice_channels_phase_of_no_record {p : GuildId × UserId}
    {states : List ((GuildId × UserId) × VoiceState)}
    (channels : List (ChannelId × List (GuildId × UserId)))
    (h : mapLookup p states = none) :
    voice_channels_phase p states channels = channels := by
  unfold voice_channels_phase
  rw [h]

theorem voice_channels_phase_of_channel_none {p : GuildId × UserId}
    {states : List ((GuildId × UserId) × VoiceState)} {vs : VoiceState}
    (channels : List (ChannelId × List (GuildId × UserId)))
    (h : mapLookup p states = some vs) (hc : vs.channel_id = none) :
    voice_channels_phase p states channels = channels := by
  unfold voice_channels_phase
  rw [h]
  dsimp only
  rw [hc]

theorem voice_channels_phase_of_channel_some {p : GuildId × UserId}
    {states : List ((GuildId × UserId) × VoiceState)} {vs : VoiceState} {c1 : ChannelId}
    (channels : List (ChannelId × List (GuildId × UserId)))
    (h : mapLookup p states = some vs) (hc : vs.channel_id = some c1) :
    voice_channels_phase p states channels = voice_channels_cleanup p c1 channels := by
  unfold voice_channels_phase
  rw [h]
  dsimp only
  rw [hc]

theorem setRemovePrune_entries_nonempty {K A : Type} [DecidableEq K] [DecidableEq A]
    (k : K) (a : A) (m : List (K × List A))
    (hm : ∀ k', (mapLookup k' m).isSome = true → setLookup m k' ≠ []) :
    ∀ k', (mapLookup k' (setRemovePrune k a m)).isSome = true →
      setLookup (setRemovePrune k a m) k' ≠ [] := by
  intro k' hk
  by_cases hc : k' = k
  · subst hc
    rw [setRemovePrune_lookup_self] at hk
    unfold setLookup
    rw [setRemovePrune_lookup_self]
    cases hl : mapLookup k' m with
    | none => rw [hl] at hk; simp at hk
    | some set =>
      rw [hl] at hk
      dsimp only at hk ⊢
      by_cases he : (setErase a set).isEmpty
      · rw [if_pos he] at hk
        simp at hk
      · rw [if_neg he]
        intro hh
        exact he (List.isEmpty_iff.mpr (by simpa using hh))
  · rw [setLookup_setRemovePrune, if_neg hc]
    rw [setRemovePrune_lookup_ne hc] at hk
    exact hm k' hk

/-! ### Accessors for the voice invariant -/

section VoiceTables

variable {states : List ((GuildId × UserId) × VoiceState)}
variable {guilds : List (GuildId × List UserId)}
variable {channels : List (ChannelId × List (GuildId × UserId))}

theorem recordChannelOf_some {p : GuildId × UserId} {r : VoiceState}
    (h : mapLookup p states = some r) : recordChannelOf states p = r.channel_id := by
  unfold recordChannelOf
  rw [h]
  rfl

theorem recordChannelOf_none {p : GuildId × UserId}
    (h : mapLookup p states = none) : recordChannelOf states p = none := by
  unfold recordChannelOf
  rw [h]
  rfl

theorem voiceTablesInv.record_mem_guild (h : voiceTablesInv states guilds channels)
    {p : GuildId × UserId} {r : VoiceState} (hl : mapLookup p states = some r) :
    p.2 ∈ setLookup guilds p.1 :=
  (h.1 p (mem_keysOf_of_lookup hl)).1

theorem voiceTablesInv.record_mem_channel (h : voiceTablesInv states guilds channels)
    {p : GuildId × UserId} {r : VoiceState} {c : ChannelId}
    (hl : mapLookup p states = some r) (hc : r.channel_id = some c) :
    p ∈ setLookup channels c := by
  have h2 := (h.1 p (mem_keysOf_of_lookup hl)).2
  rw [recordChannelOf_some hl, hc] at h2
  exact h2

theorem voiceTablesInv.guild_mem_record (h : voiceTablesInv states guilds channels)
    {g : GuildId} {u : UserId} (hm : u ∈ setLookup guilds g) :
    (mapLookup (g, u) states).isSome = true :=
  (h.2.1 g (mem_keysOf_iff.mpr (mem_setLookup_isSome hm))).2 u hm

theorem voiceTablesInv.channel_mem_record (h : voiceTablesInv states guilds channels)
    {c : ChannelId} {p : GuildId × UserId} (hm : p ∈ setLookup channels c) :
    recordChannelOf states p = some c :=
  (h.2.2 c (mem_keysOf_iff.mpr (mem_setLookup_isSome hm))).2 p hm

theorem voiceTablesInv.guild_entries_nonempty (h : voiceTablesInv states guilds channels) :
    ∀ g, (mapLookup g guilds).isSome = true → setLookup guilds g ≠ [] :=
  fun g hk => (h.2.1 g (mem_keysOf_iff.mpr hk)).1

theorem voiceTablesInv.channel_entries_nonempty
    (h : voiceTablesInv states guilds channels) :
    ∀ c, (mapLookup c channels).isSome = true → setLookup channels c ≠ [] :=
  fun c hk => (h.2.2 c (mem_keysOf_iff.mpr hk)).1

/-- What the channel-cleanup phase does to the channel index of a state
satisfying the voice invariant: membership of every other pair is untouched,
the pair being updated is in no connected set afterwards, and no surviving
entry is empty. -/
theorem voice_channels_phase_spec (hInv : voiceTablesInv states guilds channels)
    (p0 : GuildId × UserId) :
    (∀ c' x, x ≠ p0 →
      (x ∈ setLookup (voice_channels_phase p0 states channels) c' ↔
        x ∈ setLookup channels c')) ∧
    (∀ c', p0 ∉ setLookup (voice_channels_phase p0 states channels) c') ∧
    (∀ c', (mapLookup c' (voice_channels_phase p0 states channels)).isSome = true →
      setLookup (voice_channels_phase p0 states channels) c' ≠ []) := by
  have hCHne := hInv.channel_entries_nonempty
  cases hrec : mapLookup p0 states with
  | none =>
    rw [voice_channels_phase_of_no_record _ hrec]
    refine ⟨fun c' x _ => Iff.rfl, ?_, hCHne⟩
    intro c' hmem
    have h1 := hInv.channel_mem_record hmem
    rw [recordChannelOf_none hrec] at h1
    exact Option.noConfusion h1
  | some old =>
    cases hoc : old.channel_id with
    | none =>
      rw [voice_channels_phase_of_channel_none _ hrec hoc]
      refine ⟨fun c' x _ => Iff.rfl, ?_, hCHne⟩
      intro c' hmem
      have h1 := hInv.channel_mem_record hmem
      rw [recordChannelOf_some hrec, hoc] at h1
      exact Option.noConfusion h1
    | some c1 =>
      rw [voice_channels_phase_of_channel_some _ hrec hoc]
      unfold voice_channels_cleanup
      refine ⟨?_, ?_, setRemovePrune_entries_nonempty c1 p0 _ hCHne⟩
      · intro c' x hx
        rw [mem_setLookup_setRemovePrune]
        constructor
        · rintro ⟨h1, _⟩
          exact h1
        · intro h1
          exact ⟨h1, fun _ => hx⟩
      · intro c' hmem
        rw [mem_setLookup_setRemovePrune] at hmem
        obtain ⟨h1, h2⟩ := hmem
        by_cases hcc : c' = c1
        · exact h2 hcc rfl
        · have h3 := hInv.channel_mem_record h1
          rw [recordChannelOf_some hrec, hoc] at h3
          exact hcc (Option.some.inj h3).symm

end VoiceTables

/-- The join/move branch of `cache_voice_state` preserves the voice
consistency condition. -/
theorem voiceTablesInv_join {states : List ((GuildId × UserId) × VoiceState)}
    {guilds : List (GuildId × List UserId)}
    {channels : List (ChannelId × List (GuildId × UserId))}
    {vs : VoiceState} {g : GuildId} {c : ChannelId}
    (hInv : voiceTablesInv states guilds channels) (hc : vs.channel_id = some c) :
    voiceTablesInv (mapInsert (g, vs.user_id) vs states)
      (entryInsert guilds g vs.user_id)
      (entryInsert (voice_channels_phase (g, vs.user_id) states channels)
        c (g, vs.user_id)) := by
  obtain ⟨hF1, hF5, hF3⟩ := voice_channels_phase_spec hInv (g, vs.user_id)
  refine ⟨?_, ?_, ?_⟩
  · intro p hp
    by_cases hpp : p = (g, vs.user_id)
    · subst hpp
      constructor
      · exact mem_setLookup_entryInsert_self guilds g vs.user_id
      · have hrc : recordChannelOf (mapInsert (g, vs.user_id) vs states)
            (g, vs.user_id) = some c := by
          rw [recordChannelOf_some (mapLookup_insert_self (g, vs.user_id) vs states)]
          exact hc
        rw [hrc]
        exact mem_setLookup_entryInsert_self _ c (g, vs.user_id)
    · have hpk : p ∈ keysOf states := by
        rcases mem_keysOf_insert.mp hp with h | h
        · exact absurd h hpp
        · exact h
      obtain ⟨hg1, hg2⟩ := hInv.1 p hpk
      constructor
      · exact setLookup_entryInsert_superset _ _ _ hg1
      · have hrc : recordChannelOf (mapInsert (g, vs.user_id) vs states) p =
            recordChannelOf states p := by
          unfold recordChannelOf
          rw [mapLookup_insert_ne hpp]
        rw [hrc]
        apply optAll_intro
        intro c' hceq
        rw [hceq] at hg2
        apply setLookup_entryInsert_superset
        exact (hF1 c' p hpp).mpr (optAll_some hg2)
  · intro g' hg'
    by_cases hgg : g' = g
    · subst hgg
      constructor
      · rw [setLookup_entryInsert_self]
        exact setInsert_ne_nil _ _
      · intro u' hu'
        rw [setLookup_entryInsert_self] at hu'
        by_cases huu : u' = vs.user_id
        · subst huu
          simp [mapLookup_insert_self]
        · rcases mem_setInsert_iff.mp hu' with h | h
          · exact absurd h huu
          · have hrec := hInv.guild_mem_record h
            have hne : (g', u') ≠ (g', vs.user_id) := by
              intro hh
              exact huu (congrArg Prod.snd hh)
            rw [mapLookup_insert_ne hne]
            exact hrec
    · have hlu : mapLookup g' (entryInsert guilds g vs.user_id) = mapLookup g' guilds := by
        unfold entryInsert
        exact mapLookup_insert_ne hgg _ _
      have hsl : setLookup (entryInsert guilds g vs.user_id) g' = setLookup guilds g' :=
        setLookup_entryInsert_ne hgg _ _
      constructor
      · rw [hsl]
        apply hInv.guild_entries_nonempty
        rw [← hlu]
        exact mem_keysOf_iff.mp hg'
      · intro u' hu'
        rw [hsl] at hu'
        have hrec := hInv.guild_mem_record hu'
        have hne : (g', u') ≠ (g, vs.user_id) := fun hh => hgg (congrArg Prod.fst hh)
        rw [mapLookup_insert_ne hne]
        exact hrec
  · intro c' hcm
    by_cases hcc : c' = c
    · subst hcc
      constructor
      · rw [setLookup_entryInsert_self]
        exact setInsert_ne_nil _ _
      · intro p hp
        rw [setLookup_entryInsert_self] at hp
        by_cases hpp : p = (g, vs.user_id)
        · subst hpp
          rw [recordChannelOf_some (mapLookup_insert_self _ vs states)]
          exact hc
        · have hpT : p ∈ setLookup
              (voice_channels_phase (g, vs.user_id) states channels) c' := by
            rcases mem_setInsert_iff.mp hp with h | h
            · exact absurd h hpp
            · exact h
          have hrec := hInv.channel_mem_record ((hF1 c' p hpp).mp hpT)
          have hrc : recordChannelOf (mapInsert (g, vs.user_id) vs states) p =
              recordChannelOf states p := by
            unfold recordChannelOf
            rw [mapLookup_insert_ne hpp]
          rw [hrc]
          exact hrec
    · have hsl : setLookup
          (entryInsert (voice_channels_phase (g, vs.user_id) states channels)
            c (g, vs.user_id)) c' =
          setLookup (voice_channels_phase (g, vs.user_id) states channels) c' :=
        setLookup_entryInsert_ne hcc _ _
      have hlu : mapLookup c'
          (entryInsert (voice_channels_phase (g, vs.user_id) states channels)
            c (g, vs.user_id)) =
          mapLookup c' (voice_channels_phase (g, vs.user_id) states channels) := by
        unfold entryInsert
        exact mapLookup_insert_ne hcc _ _
      constructor
      · rw [hsl]
        apply hF3
        rw [← hlu]
        exact mem_keysOf_iff.mp hcm
      · intro p hp
        rw [hsl] at hp
        have hpne : p ≠ (g, vs.user_id) := fun hh => hF5 c' (hh ▸ hp)
        have hrec := hInv.channel_mem_record ((hF1 c' p hpne).mp hp)
        have hrc : recordChannelOf (mapInsert (g, vs.user_id) vs states) p =
            recordChannelOf states p := by
          unfold recordChannelOf
          rw [mapLookup_insert_ne hpne]
        rw [hrc]
        exact hrec

/-- The disconnect branch of `cache_voice_state` preserves the voice
consistency condition. -/
theorem voiceTablesInv_leave {states : List ((GuildId × UserId) × VoiceState)}
    {guilds : List (GuildId × List UserId)}
    {channels : List (ChannelId × List (GuildId × UserId))} {g : GuildId} {u : UserId}
    (hInv : voiceTablesInv states guilds channels) :
    voiceTablesInv (mapErase (g, u) states)
      (voice_guild_remove g u guilds)
      (voice_channels_phase (g, u) states channels) := by
  obtain ⟨hF1, hF5, hF3⟩ := voice_channels_phase_spec hInv (g, u)
  have hGR : voice_guild_remove g u guilds = setRemovePrune g u guilds := rfl
  refine ⟨?_, ?_, ?_⟩
  · intro p hp
    obtain ⟨hpne, hpk⟩ := mem_keysOf_erase hp
    obtain ⟨hg1, hg2⟩ := hInv.1 p hpk
    constructor
    · rw [hGR, mem_setLookup_setRemovePrune]
      refine ⟨hg1, ?_⟩
      intro hgg hueq
      exact hpne (Prod.ext hgg hueq)
    · have hrc : recordChannelOf (mapErase (g, u) states) p =
          recordChannelOf states p := by
        unfold recordChannelOf
        rw [mapLookup_erase_ne hpne]
      rw [hrc]
      apply optAll_intro
      intro c' hceq
      rw [hceq] at hg2
      exact (hF1 c' p hpne).mpr (optAll_some hg2)
  · intro g' hg'
    rw [hGR] at hg' ⊢
    constructor
    · exact setRemovePrune_entries_nonempty g u guilds hInv.guild_entries_nonempty g'
        (mem_keysOf_iff.mp hg')
    · intro u' hu'
      rw [mem_setLookup_setRemovePrune] at hu'
      obtain ⟨hu1, hu2⟩ := hu'
      have hrec := hInv.guild_mem_record hu1
      have hne : (g', u') ≠ (g, u) := by
        intro hh
        exact hu2 (congrArg Prod.fst hh) (congrArg Prod.snd hh)
      rw [mapLookup_erase_ne hne]
      exact hrec
  · intro c' hcm
    constructor
    · exact hF3 c' (mem_keysOf_iff.mp hcm)
    · intro p hp
      have hpne : p ≠ (g, u) := fun hh => hF5 c' (hh ▸ hp)
      have hrec := hInv.channel_mem_record ((hF1 c' p hpne).mp hp)
      have hrc : recordChannelOf (mapErase (g, u) states) p =
          recordChannelOf states p := by
        unfold recordChannelOf
        rw [mapLookup_erase_ne hpne]
      rw [hrc]
      exact hrec

/-! ### Case shapes of `cache_voice_state` -/

theorem cache_voice_state_no_guild {vs : VoiceState} (s : CacheState)
    (hg : vs.guild_id = none) : cache_voice_state vs s = s := by
  unfold cache_voice_state
  rw [hg]

theorem cache_voice_state_leave {vs : VoiceState} {g : GuildId} (s : CacheState)
    (hg : vs.guild_id = some g) (hc : vs.channel_id = none) :
    cache_voice_state vs s =
      { s with
        voice_state_channels :=
          voice_channels_phase (g, vs.user_id) s.voice_states s.voice_state_channels
        voice_state_guilds := voice_guild_remove g vs.user_id s.voice_state_guilds
        voice_states := mapErase (g, vs.user_id) s.voice_states } := by
  unfold cache_voice_state voice_cleanup_old_channel
  rw [hg]
  dsimp only
  rw [hc]

theorem cache_voice_state_join {vs : VoiceState} {g : GuildId} {c : ChannelId}
    (s : CacheState) (hg : vs.guild_id = some g) (hc : vs.channel_id = some c) :
    cache_voice_state vs s =
      { s with
        voice_states := mapInsert (g, vs.user_id) vs s.voice_states
        voice_state_guilds := entryInsert s.voice_state_guilds g vs.user_id
        voice_state_channels :=
          entryInsert
            (voice_channels_phase (g, vs.user_id) s.voice_states s.voice_state_channels)
            c (g, vs.user_id) } := by
  unfold cache_voice_state voice_cleanup_old_channel
  rw [hg]
  dsimp only
  rw [hc]

/-! ## Claim C5 -/

/-- Claim C5 (amended): after every completed `cache_voice_state` call
starting from a state satisfying the three-way voice consistency invariant,
the invariant still holds: a (guild, user) pair is in the global voice-state
table iff the user is in exactly that guild's connected set and, when the
record carries a channel id, the pair is in exactly that channel's connected
set, and no channel- or guild-index entry holds an empty set.  (The original
claim over every mutation fails: guild bulk-seeding in `cache_guild`
deliberately creates an empty guild container.) -/
theorem C5_voice_invariant_preserved (s : CacheState) (vs : VoiceState)
    (hInv : voiceInv s) : voiceInv (cache_voice_state vs s) := by
  cases hg : vs.guild_id with
  | none =>
    rw [cache_voice_state_no_guild s hg]
    exact hInv
  | some g =>
    cases hc : vs.channel_id with
    | none =>
      rw [cache_voice_state_leave s hg hc]
      exact voiceTablesInv_leave hInv
    | some c =>
      rw [cache_voice_state_join s hg hc]
      exact voiceTablesInv_join hInv hc

/-- Concrete instantiation of `C5_voice_invariant_preserved`: a join into an
empty cache. -/
theorem C5_witness :
    voiceInv (cache_voice_state
      { channel_id := some 10, guild_id := some 1, user_id := 2, payload := 0 }
      emptyCache) :=
  C5_voice_invariant_preserved emptyCache
    { channel_id := some 10, guild_id := some 1, user_id := 2, payload := 0 }
    (by decide)

/-- Claim C5 as stated is false: processing a guild snapshot with no voice
states (here with the default all-categories configuration) leaves an empty
connected-user set stored under the guild's key, violating the no-empty-sets
part of the invariant after a completed mutation call. -/
theorem C5_counterexample :
    mapLookup 1 (cache_guild
      { id := 1, channels := [], emojis := [], members := [], presences := [],
        roles := [], stage_instances := [], voice_states := [],
        unavailable := false, payload := 0 }
      emptyCache).voice_state_guilds = some [] ∧
    ¬ voiceInv (cache_guild
      { id := 1, channels := [], emojis := [], members := [], presences := [],
        roles := [], stage_instances := [], voice_states := [],
        unavailable := false, payload := 0 }
      emptyCache) := by
  decide

/-! ## Claim C4 -/

/-- Claim C4: from a consistent state in which (g, u) is recorded as
connected to channel `c1`, a voice-state update carrying a different channel
`c2` removes the pair from c1's connected set (deleting the entry if it
becomes empty), inserts it into c2's connected set, and leaves the guild
connected sets and the global table's key membership unchanged with only the
record overwritten; an update carrying no channel id removes the pair from
c1's connected set (pruning if empty), removes the user from the guild's
connected set (pruning if empty), removes the global record, and re-inserts
nothing. -/
theorem C4_voice_move_and_leave (s : CacheState) (vs old : VoiceState)
    (g : GuildId) (u : UserId) (c1 : ChannelId)
    (hInv : voiceInv s)
    (hrec : mapLookup (g, u) s.voice_states = some old)
    (hc1 : old.channel_id = some c1)
    (hg : vs.guild_id = some g) (hu : vs.user_id = u) :
    (∀ c2, vs.channel_id = some c2 → c2 ≠ c1 →
      ((g, u) ∉ setLookup (cache_voice_state vs s).voice_state_channels c1) ∧
      ((∀ x ∈ setLookup s.voice_state_channels c1, x = (g, u)) →
        mapLookup c1 (cache_voice_state vs s).voice_state_channels = none) ∧
      ((g, u) ∈ setLookup (cache_voice_state vs s).voice_state_channels c2) ∧
      (cache_voice_state vs s).voice_state_guilds = s.voice_state_guilds ∧
      (∀ k, (mapLookup k (cache_voice_state vs s).voice_states).isSome =
        (mapLookup k s.voice_states).isSome) ∧
      mapLookup (g, u) (cache_voice_state vs s).voice_states = some vs ∧
      (∀ k, k ≠ (g, u) → mapLookup k (cache_voice_state vs s).voice_states =
        mapLookup k s.voice_states)) ∧
    (vs.channel_id = none →
      ((g, u) ∉ setLookup (cache_voice_state vs s).voice_state_channels c1) ∧
      ((∀ x ∈ setLookup s.voice_state_channels c1, x = (g, u)) →
        mapLookup c1 (cache_voice_state vs s).voice_state_channels = none) ∧
      (u ∉ setLookup (cache_voice_state vs s).voice_state_guilds g) ∧
      ((∀ x ∈ setLookup s.voice_state_guilds g, x = u) →
        mapLookup g (cache_voice_state vs s).voice_state_guilds = none) ∧
      mapLookup (g, u) (cache_voice_state vs s).voice_states = none ∧
      (∀ k, k ≠ (g, u) → mapLookup k (cache_voice_state vs s).voice_states =
        mapLookup k s.voice_states)) := by
  subst hu
  have hphase : voice_channels_phase (g, vs.user_id) s.voice_states s.voice_state_channels =
      setRemovePrune c1 (g, vs.user_id) s.voice_state_channels :=
    voice_channels_phase_of_channel_some _ hrec hc1
  constructor
  · intro c2 hc2 hne
    rw [cache_voice_state_join s hg hc2]
    dsimp only
    have hne' : c1 ≠ c2 := fun hh => hne hh.symm
    refine ⟨?_, ?_, ?_, ?_, ?_, ?_, ?_⟩
    · rw [setLookup_entryInsert_ne hne', hphase]
      exact not_mem_setLookup_setRemovePrune_self c1 (g, vs.user_id) s.voice_state_channels
    · intro hall
      have h1 : mapLookup c1 (entryInsert
          (voice_channels_phase (g, vs.user_id) s.voice_states s.voice_state_channels)
          c2 (g, vs.user_id)) =
          mapLookup c1 (voice_channels_phase (g, vs.user_id) s.voice_states
            s.voice_state_channels) := by
        unfold entryInsert
        exact mapLookup_insert_ne hne' _ _
      rw [h1, hphase]
      exact setRemovePrune_prunes hall
    · exact mem_setLookup_entryInsert_self _ c2 (g, vs.user_id)
    · apply entryInsert_of_mem
      exact hInv.record_mem_guild hrec
    · intro k
      by_cases hk : k = (g, vs.user_id)
      · subst hk
        rw [mapLookup_insert_self, hrec]
        rfl
      · rw [mapLookup_insert_ne hk]
    · exact mapLookup_insert_self _ _ _
    · intro k hk
      exact mapLookup_insert_ne hk _ _
  · intro hcn
    rw [cache_voice_state_leave s hg hcn]
    dsimp only
    refine ⟨?_, ?_, ?_, ?_, ?_, ?_⟩
    · rw [hphase]
      exact not_mem_setLookup_setRemovePrune_self c1 (g, vs.user_id) s.voice_state_channels
    · intro hall
      rw [hphase]
      exact setRemovePrune_prunes hall
    · exact not_mem_setLookup_setRemovePrune_self g vs.user_id s.voice_state_guilds
    · intro hall
      exact setRemovePrune_prunes hall
    · exact mapLookup_erase_self _ _
    · intro k hk
      exact mapLookup_erase_ne hk _

/-- Concrete instantiation of `C4_voice_move_and_leave`: user 2 of guild 1
moves from channel 10 to channel 20, then disconnects. -/
theorem C4_witness :
    ((1, 2) ∈ setLookup (cache_voice_state
      { channel_id := some 20, guild_id := some 1, user_id := 2, payload := 0 }
      (cache_voice_state
        { channel_id := some 10, guild_id := some 1, user_id := 2, payload := 0 }
        emptyCache)).voice_state_channels 20) ∧
    mapLookup (1, 2) (cache_voice_state
      { channel_id := none, guild_id := some 1, user_id := 2, payload := 0 }
      (cache_voice_state
        { channel_id := some 10, guild_id := some 1, user_id := 2, payload := 0 }
        emptyCache)).voice_states = none := by
  constructor
  · exact (((C4_voice_move_and_leave _
      { channel_id := some 20, guild_id := some 1, user_id := 2, payload := 0 }
      { channel_id := some 10, guild_id := some 1, user_id := 2, payload := 0 }
      1 2 10 (by decide) (by decide) rfl rfl rfl).1 20 rfl (by decide)).2.2.1)
  · exact (((C4_voice_move_and_leave _
      { channel_id := none, guild_id := some 1, user_id := 2, payload := 0 }
      { channel_id := some 10, guild_id := some 1, user_id := 2, payload := 0 }
      1 2 10 (by decide) (by decide) rfl rfl rfl).2 rfl).2.2.2.2.1)

/-! ## Claim C6 -/

/-- A state with users 1 and 2 of guild 1 both connected to channel 5. -/
def twoUsersChannelFive : CacheState :=
  cache_voice_state
    { channel_id := some 5, guild_id := some 1, user_id := 2, payload := 0 }
    (cache_voice_state
      { channel_id := some 5, guild_id := some 1, user_id := 1, payload := 0 }
      emptyCache)

/-- Claim C6 as stated is false: the code has no same-channel special case.
Formalising "the removal of the pair from that channel's connected set is
skipped" as the channel-cleanup phase of `cache_voice_state` leaving the
channel index unchanged, a concrete same-channel update refutes it: user 1's
cached record points at channel 5, an update for the same channel arrives,
and the cleanup phase has removed the pair from channel 5's connected set. -/
theorem C6_counterexample :
    mapLookup (1, 1) twoUsersChannelFive.voice_states =
      some { channel_id := some 5, guild_id := some 1, user_id := 1, payload := 0 } ∧
    ((1, 1) ∈ setLookup twoUsersChannelFive.voice_state_channels 5) ∧
    ((1, 1) ∉
      setLookup (voice_cleanup_old_channel 1 1 twoUsersChannelFive).voice_state_channels 5) := by
  decide

/-- Claim C6 (amended): for a voice-state update whose incoming channel id
equals the previously recorded one, the old-channel cleanup is not skipped —
the pair is removed from the channel's connected set by the cleanup phase and
re-inserted afterwards — but the completed call is observably as if it had
been skipped: the stored record is overwritten with the incoming record, and
channel-set membership, channel-entry presence and the guild index are
unchanged. -/
theorem C6_same_channel_removes_and_reinserts (s : CacheState) (vs old : VoiceState)
    (g : GuildId) (u : UserId) (c : ChannelId)
    (hInv : voiceInv s)
    (hrec : mapLookup (g, u) s.voice_states = some old)
    (hcold : old.channel_id = some c)
    (hg : vs.guild_id = some g) (hu : vs.user_id = u)
    (hcnew : vs.channel_id = some c) :
    ((g, u) ∉ setLookup (voice_cleanup_old_channel g u s).voice_state_channels c) ∧
    mapLookup (g, u) (cache_voice_state vs s).voice_states = some vs ∧
    (∀ c' x, x ∈ setLookup (cache_voice_state vs s).voice_state_channels c' ↔
      x ∈ setLookup s.voice_state_channels c') ∧
    (∀ c', (mapLookup c' (cache_voice_state vs s).voice_state_channels).isSome =
      (mapLookup c' s.voice_state_channels).isSome) ∧
    (cache_voice_state vs s).voice_state_guilds = s.voice_state_guilds := by
  subst hu
  have hphase : voice_channels_phase (g, vs.user_id) s.voice_states
      s.voice_state_channels =
      setRemovePrune c (g, vs.user_id) s.voice_state_channels :=
    voice_channels_phase_of_channel_some _ hrec hcold
  have hmemc : (g, vs.user_id) ∈ setLookup s.voice_state_channels c :=
    hInv.record_mem_channel hrec hcold
  refine ⟨?_, ?_, ?_, ?_, ?_⟩
  · show (g, vs.user_id) ∉ setLookup
      (voice_channels_phase (g, vs.user_id) s.voice_states s.voice_state_channels) c
    rw [hphase]
    exact not_mem_setLookup_setRemovePrune_self c (g, vs.user_id) s.voice_state_channels
  · rw [cache_voice_state_join s hg hcnew]
    exact mapLookup_insert_self _ _ _
  · rw [cache_voice_state_join s hg hcnew]
    dsimp only
    intro c' x
    by_cases hcc : c' = c
    · subst hcc
      rw [setLookup_entryInsert_self, mem_setInsert_iff, hphase,
        mem_setLookup_setRemovePrune]
      constructor
      · rintro (rfl | ⟨hx, _⟩)
        · exact hmemc
        · exact hx
      · intro hx
        by_cases hxp : x = (g, vs.user_id)
        · exact Or.inl hxp
        · exact Or.inr ⟨hx, fun _ => hxp⟩
    · rw [setLookup_entryInsert_ne hcc, hphase, setLookup_setRemovePrune, if_neg hcc]
  · rw [cache_voice_state_join s hg hcnew]
    dsimp only
    intro c'
    by_cases hcc : c' = c
    · subst hcc
      have hL : (mapLookup c' (entryInsert
          (voice_channels_phase (g, vs.user_id) s.voice_states s.voice_state_channels)
          c' (g, vs.user_id))).isSome = true := by
        unfold entryInsert
        rw [mapLookup_insert_self]
        rfl
      have hR : (mapLookup c' s.voice_state_channels).isSome = true :=
        mem_setLookup_isSome hmemc
      rw [hL, hR]
    · show (mapLookup c' (entryInsert
          (voice_channels_phase (g, vs.user_id) s.voice_states s.voice_state_channels)
          c (g, vs.user_id))).isSome =
        (mapLookup c' s.voice_state_channels).isSome
      unfold entryInsert
      rw [mapLookup_insert_ne hcc, hphase, setRemovePrune_lookup_ne hcc]
  · rw [cache_voice_state_join s hg hcnew]
    exact entryInsert_of_mem (hInv.record_mem_guild hrec)

/-- Concrete instantiation of `C6_same_channel_removes_and_reinserts`: a
flags-only update for user 1 while stationary in channel 5. -/
theorem C6_witness :
    ((1, 1) ∉
      setLookup (voice_cleanup_old_channel 1 1 twoUsersChannelFive).voice_state_channels 5) ∧
    mapLookup (1, 1) (cache_voice_state
      { channel_id := some 5, guild_id := some 1, user_id := 1, payload := 7 }
      twoUsersChannelFive).voice_states =
      some { channel_id := some 5, guild_id := some 1, user_id := 1, payload := 7 } := by
  have h := C6_same_channel_removes_and_reinserts twoUsersChannelFive
    { channel_id := some 5, guild_id := some 1, user_id := 1, payload := 7 }
    { channel_id := some 5, guild_id := some 1, user_id := 1, payload := 0 }
    1 1 5 (by decide) (by decide) rfl rfl rfl rfl
  exact ⟨h.1, h.2.1⟩

/-! ## Claim C8 -/

theorem setRemovePrune_idem {K A : Type} [DecidableEq K] [DecidableEq A]
    (k : K) (a : A) (m : List (K × List A)) :
    setRemovePrune k a (setRemovePrune k a m) = setRemovePrune k a m := by
  cases hl : mapLookup k m with
  | none => rw [setRemovePrune_of_none hl, setRemovePrune_of_none hl]
  | some set =>
    by_cases he : (setErase a set).isEmpty
    · have h1 : mapLookup k (setRemovePrune k a m) = none := by
        rw [setRemovePrune_lookup_self, hl]
        dsimp only
        rw [if_pos he]
      exact setRemovePrune_of_none h1
    · have h1 : mapLookup k (setRemovePrune k a m) = some (setErase a set) := by
        rw [setRemovePrune_lookup_self, hl]
        dsimp only
        rw [if_neg he]
      apply setRemovePrune_of_not_mem h1 (not_mem_setErase_self a set)
      intro hh
      exact he (by rw [hh]; rfl)

/-- Removing an element from a membership set and re-inserting it leaves the
set-valued map extensionally unchanged. -/
theorem entryInsert_setRemovePrune_equiv {K A : Type} [DecidableEq K] [DecidableEq A]
    (k : K) (a : A) (m : List (K × List A)) (hmem : a ∈ setLookup m k) :
    setMapEqv (entryInsert (setRemovePrune k a m) k a) m := by
  intro k'
  constructor
  · by_cases hc : k' = k
    · subst hc
      have hL : (mapLookup k' (entryInsert (setRemovePrune k' a m) k' a)).isSome = true := by
        unfold entryInsert
        rw [mapLookup_insert_self]
        rfl
      rw [hL, mem_setLookup_isSome hmem]
    · unfold entryInsert
      rw [mapLookup_insert_ne hc, setRemovePrune_lookup_ne hc]
  · intro x
    by_cases hc : k' = k
    · subst hc
      rw [setLookup_entryInsert_self, mem_setInsert_iff, mem_setLookup_setRemovePrune]
      constructor
      · rintro (rfl | ⟨hx, _⟩)
        · exact hmem
        · exact hx
      · intro hx
        by_cases hxa : x = a
        · exact Or.inl hxa
        · exact Or.inr ⟨hx, fun _ => hxa⟩
    · rw [setLookup_entryInsert_ne hc, setLookup_setRemovePrune, if_neg hc]

/-- `cache_voice_state` applied twice with the same record is extensionally
the same as applied once. -/
theorem cache_voice_state_idem_equiv (vs : VoiceState) (s : CacheState) :
    StateEquiv (cache_voice_state vs (cache_voice_state vs s))
      (cache_voice_state vs s) := by
  cases hg : vs.guild_id with
  | none =>
    rw [cache_voice_state_no_guild s hg, cache_voice_state_no_guild s hg]
    exact StateEquiv.refl s
  | some g =>
    cases hc : vs.channel_id with
    | none =>
      apply StateEquiv.of_eq
      rw [cache_voice_state_leave s hg hc]
      rw [cache_voice_state_leave _ hg hc]
      apply CacheState.ext <;>
        first
          | rfl
          | exact voice_channels_phase_of_no_record _ (mapLookup_erase_self _ _)
          | exact setRemovePrune_idem g vs.user_id _
          | exact mapErase_lookup_none (mapLookup_erase_self _ _)
    | some c =>
      rw [cache_voice_state_join s hg hc]
      rw [cache_voice_state_join _ hg hc]
      refine ⟨rfl, mapEqv_refl _, mapEqv_refl _, rfl, mapEqv_refl _, mapEqv_refl _,
        mapEqv_refl _, setMapEqv_refl _, setMapEqv_refl _, setMapEqv_refl _,
        setMapEqv_refl _, setMapEqv_refl _, setMapEqv_refl _, setMapEqv_refl _,
        mapEqv_refl _, mapEqv_refl _, mapEqv_refl _, mapEqv_refl _, mapEqv_refl _,
        mapEqv_refl _, listSetEqv_refl _, mapEqv_refl _, ?_, ?_, ?_⟩
      · rw [voice_channels_phase_of_channel_some _
          (mapLookup_insert_self (g, vs.user_id) vs _) hc]
        exact entryInsert_setRemovePrune_equiv c (g, vs.user_id) _
          (mem_setLookup_entryInsert_self _ c (g, vs.user_id))
      · rw [entryInsert_idem]
        exact setMapEqv_refl _
      · rw [mapInsert_idem]
        exact mapEqv_refl _

/-- Claim C8 as stated is false for the guild-snapshot upsert: re-applying
the same guild snapshot (one emoji, default configuration) empties the
guild's emoji index, because `cache_guild` resets the index container and
`cache_emoji`'s value-equality short-circuit then skips re-indexing. -/
theorem C8_counterexample :
    mapLookup 1 (cache_guild
      { id := 1, channels := [], emojis := [{ id := 3, user := none, payload := 0 }],
        members := [], presences := [], roles := [], stage_instances := [],
        voice_states := [], unavailable := false, payload := 0 }
      emptyCache).guild_emojis = some [3] ∧
    mapLookup 1 (cache_guild
      { id := 1, channels := [], emojis := [{ id := 3, user := none, payload := 0 }],
        members := [], presences := [], roles := [], stage_instances := [],
        voice_states := [], unavailable := false, payload := 0 }
      (cache_guild
        { id := 1, channels := [], emojis := [{ id := 3, user := none, payload := 0 }],
          members := [], presences := [], roles := [], stage_instances := [],
          voice_states := [], unavailable := false, payload := 0 }
        emptyCache)).guild_emojis = some [] := by
  decide

/-- Claim C8 (amended): for every upsert operation of the cache except the
guild-snapshot upsert — guild channel, emoji, integration, member, presence,
private channel, role, stage instance, user, and voice state — applying the
operation twice in succession from any state leaves every table and every
index extensionally identical to applying it once (for the voice-state
upsert a removed-then-reinserted channel entry may sit at a different bucket
position, which a hash map does not observe); re-applying a guild snapshot
can instead empty the guild's per-category index sets. -/
theorem C8_upserts_idempotent (s : CacheState) (g : GuildId)
    (channel : GuildChannel) (emoji : Emoji) (integration : GuildIntegration)
    (member : Member) (presence : CachedPresence) (private_channel : PrivateChannel)
    (role : Role) (stage_instance : StageInstance) (user : User)
    (guild_id : Option GuildId) (vs : VoiceState) :
    StateEquiv (cache_guild_channel g channel (cache_guild_channel g channel s))
      (cache_guild_channel g channel s) ∧
    StateEquiv (cache_emoji g emoji (cache_emoji g emoji s)) (cache_emoji g emoji s) ∧
    StateEquiv (cache_integration g integration (cache_integration g integration s))
      (cache_integration g integration s) ∧
    StateEquiv (cache_member g member (cache_member g member s))
      (cache_member g member s) ∧
    StateEquiv (cache_presence g presence (cache_presence g presence s))
      (cache_presence g presence s) ∧
    StateEquiv (cache_private_channel private_channel
        (cache_private_channel private_channel s))
      (cache_private_channel private_channel s) ∧
    StateEquiv (cache_role g role (cache_role g role s)) (cache_role g role s) ∧
    StateEquiv (cache_stage_instance g stage_instance
        (cache_stage_instance g stage_instance s))
      (cache_stage_instance g stage_instance s) ∧
    StateEquiv (cache_user user guild_id (cache_user user guild_id s))
      (cache_user user guild_id s) ∧
    StateEquiv (cache_voice_state vs (cache_voice_state vs s))
      (cache_voice_state vs s) :=
  ⟨StateEquiv.of_eq (cache_guild_channel_idem g channel s),
   StateEquiv.of_eq (cache_emoji_idem g emoji s),
   StateEquiv.of_eq (cache_integration_idem g integration s),
   StateEquiv.of_eq (cache_member_idem g member s),
   StateEquiv.of_eq (cache_presence_idem g presence s),
   StateEquiv.of_eq (cache_private_channel_idem private_channel s),
   StateEquiv.of_eq (cache_role_idem g role s),
   StateEquiv.of_eq (cache_stage_instance_idem g stage_instance s),
   StateEquiv.of_eq (cache_user_idem user guild_id s),
   cache_voice_state_idem_equiv vs s⟩

/-! ## Claim C9 -/

theorem GuildChannel.id_withGuildId (g : GuildId) (channel : GuildChannel) :
    (channel.withGuildId g).id = channel.id := by
  cases channel <;> rfl

theorem GuildChannel.guildIdField_withGuildId (g : GuildId) (channel : GuildChannel) :
    (channel.withGuildId g).guildIdField = some g := by
  cases channel <;> rfl

/-- The channel table holds an entry for `cid` whose payload's owning-guild
field is `some g`. -/
def chanOwnedBy (m : List (ChannelId × GuildItem GuildChannel)) (cid : ChannelId)
    (g : GuildId) : Prop :=
  ∃ it, mapLookup cid m = some it ∧ it.data.guildIdField = some g

theorem chanOwnedBy_cache_guild_channel (g : GuildId) (channel : GuildChannel)
    (s : CacheState) (cid : ChannelId)
    (h : chanOwnedBy s.channels_guild cid g ∨ cid = channel.id) :
    chanOwnedBy (cache_guild_channel g channel s).channels_guild cid g := by
  have hproj : (cache_guild_channel g channel s).channels_guild =
      upsert_guild_item s.channels_guild g (channel.withGuildId g).id
        (channel.withGuildId g) := rfl
  rw [hproj]
  have hfield : (channel.withGuildId g).guildIdField = some g :=
    GuildChannel.guildIdField_withGuildId g channel
  by_cases hk : cid = (channel.withGuildId g).id
  · subst hk
    unfold upsert_guild_item
    cases hl : mapLookup (channel.withGuildId g).id s.channels_guild with
    | some item =>
      dsimp only
      by_cases hd : item.data = channel.withGuildId g
      · rw [if_pos hd]
        exact ⟨item, hl, by rw [hd]; exact hfield⟩
      · rw [if_neg hd]
        exact ⟨⟨channel.withGuildId g, g⟩, mapLookup_insert_self _ _ _, hfield⟩
    | none =>
      exact ⟨⟨channel.withGuildId g, g⟩, mapLookup_insert_self _ _ _, hfield⟩
  · have hcid : chanOwnedBy s.channels_guild cid g := by
      rcases h with h | h
      · exact h
      · exact absurd (h.trans (GuildChannel.id_withGuildId g channel).symm) hk
    obtain ⟨it, hit, hf⟩ := hcid
    refine ⟨it, ?_, hf⟩
    unfold upsert_guild_item
    cases hl : mapLookup (channel.withGuildId g).id s.channels_guild with
    | some item =>
      dsimp only
      by_cases hd : item.data = channel.withGuildId g
      · rw [if_pos hd]
        exact hit
      · rw [if_neg hd, mapLookup_insert_ne hk]
        exact hit
    | none =>
      rw [mapLookup_insert_ne hk]
      exact hit

theorem chanOwnedBy_cache_guild_channels (g : GuildId) (chs : List GuildChannel)
    (s : CacheState) (cid : ChannelId)
    (h : chanOwnedBy s.channels_guild cid g ∨ cid ∈ chs.map GuildChannel.id) :
    chanOwnedBy (cache_guild_channels g chs s).channels_guild cid g := by
  induction chs generalizing s with
  | nil =>
    rcases h with h | h
    · exact h
    · simp at h
  | cons channel rest ih =>
    show chanOwnedBy
      (cache_guild_channels g rest (cache_guild_channel g channel s)).channels_guild cid g
    apply ih
    rcases h with h | h
    · exact Or.inl (chanOwnedBy_cache_guild_channel g channel s cid (Or.inl h))
    · rcases (by simpa using h : cid = channel.id ∨ cid ∈ rest.map GuildChannel.id) with
        h1 | h1
      · exact Or.inl (chanOwnedBy_cache_guild_channel g channel s cid (Or.inr h1))
      · exact Or.inr h1

/-! ### The sections of `cache_guild` after the channels section do not touch
the channel table -/

theorem channels_guild_cache_emoji (g : GuildId) (emoji : Emoji) (s : CacheState) :
    (cache_emoji g emoji s).channels_guild = s.channels_guild := by
  unfold cache_emoji
  repeat' split
  all_goals (first | rfl | (dsimp only; split <;> rfl))

theorem foldl_channels_guild {α : Type} (f : CacheState → α → CacheState)
    (hf : ∀ s a, (f s a).channels_guild = s.channels_guild) :
    ∀ (l : List α) (s : CacheState), (l.foldl f s).channels_guild = s.channels_guild := by
  intro l
  induction l with
  | nil => intro s; rfl
  | cons a rest ih =>
    intro s
    rw [List.foldl_cons, ih, hf]

theorem channels_guild_cache_emojis (g : GuildId) (emojis : List Emoji) (s : CacheState) :
    (cache_emojis g emojis s).channels_guild = s.channels_guild := by
  unfold cache_emojis
  rw [foldl_channels_guild _ (fun t e => channels_guild_cache_emoji g e t)]
  unfold emojis_removal_phase
  cases hl : mapLookup g s.guild_emojis <;> rfl

theorem channels_guild_cache_member (g : GuildId) (member : Member) (s : CacheState) :
    (cache_member g member s).channels_guild = s.channels_guild := by
  unfold cache_member
  repeat' split
  all_goals (first | rfl | (dsimp only; split <;> rfl))

theorem channels_guild_cache_members (g : GuildId) (members : List Member)
    (s : CacheState) :
    (cache_members g members s).channels_guild = s.channels_guild :=
  foldl_channels_guild _ (fun t m => channels_guild_cache_member g m t) members s

theorem channels_guild_cache_presences (g : GuildId) (presences : List CachedPresence)
    (s : CacheState) :
    (cache_presences g presences s).channels_guild = s.channels_guild :=
  foldl_channels_guild (fun t presence => cache_presence g presence t)
    (fun _ _ => rfl) presences s

theorem channels_guild_cache_roles (g : GuildId) (roles : List Role) (s : CacheState) :
    (cache_roles g roles s).channels_guild = s.channels_guild :=
  foldl_channels_guild (fun t role => cache_role g role t) (fun _ _ => rfl) roles s

theorem channels_guild_cache_voice_state (vs : VoiceState) (s : CacheState) :
    (cache_voice_state vs s).channels_guild = s.channels_guild := by
  cases hg : vs.guild_id with
  | none => rw [cache_voice_state_no_guild s hg]
  | some g =>
    cases hc : vs.channel_id with
    | none => rw [cache_voice_state_leave s hg hc]
    | some c => rw [cache_voice_state_join s hg hc]

theorem channels_guild_cache_voice_states (voice_states : List VoiceState)
    (s : CacheState) :
    (cache_voice_states voice_states s).channels_guild = s.channels_guild :=
  foldl_channels_guild _ (fun t v => channels_guild_cache_voice_state v t) voice_states s

theorem channels_guild_cache_stage_instances (g : GuildId)
    (stage_instances : List StageInstance) (s : CacheState) :
    (cache_stage_instances g stage_instances s).channels_guild = s.channels_guild :=
  foldl_channels_guild (fun t si => cache_stage_instance g si t)
    (fun _ _ => rfl) stage_instances s

/-- When channel caching is enabled, the channel table produced by
`cache_guild` is the one built by the channels section. -/
theorem channels_guild_cache_guild (guild : Guild) (s : CacheState)
    (hw : wants s .channel) :
    (cache_guild guild s).channels_guild =
      (cache_guild_channels guild.id guild.channels
        { s with guild_channels := mapInsert guild.id [] s.guild_channels }).channels_guild := by
  simp only [cache_guild, if_pos hw, apply_ite CacheState.channels_guild,
    channels_guild_cache_emojis, channels_guild_cache_members,
    channels_guild_cache_presences, channels_guild_cache_roles,
    channels_guild_cache_voice_states, channels_guild_cache_stage_instances, ite_self]

/-- Claim C9: every channel contained in a guild snapshot processed by
`cache_guild` — including one whose owning-guild field is absent — is
afterwards retrievable via `guild_channel` with its owning-guild field equal
to the snapshot's guild id (stated under the resource gate for channels,
which the snapshot path consults). -/
theorem C9_guild_snapshot_channels (guild : Guild) (s : CacheState)
    (channel : GuildChannel) (hw : wants s .channel) (hmem : channel ∈ guild.channels) :
    (InMemoryCache.guild_channel (cache_guild guild s) channel.id).map
      GuildChannel.guildIdField = some (some guild.id) := by
  have howned : chanOwnedBy (cache_guild_channels guild.id guild.channels
      { s with guild_channels := mapInsert guild.id [] s.guild_channels }).channels_guild
      channel.id guild.id :=
    chanOwnedBy_cache_guild_channels _ _ _ _
      (Or.inr (List.mem_map_of_mem GuildChannel.id hmem))
  obtain ⟨it, hit, hf⟩ := howned
  unfold InMemoryCache.guild_channel
  rw [channels_guild_cache_guild guild s hw, hit]
  simp [hf]

/-- A guild snapshot carrying one text channel without an owning-guild
field. -/
def snapshotGuildExample : Guild :=
  { id := 123
    channels := [GuildChannel.text { id := 111, guild_id := none, payload := 0 }]
    emojis := []
    members := []
    presences := []
    roles := []
    stage_instances := []
    voice_states := []
    unavailable := false
    payload := 0 }

/-- Concrete instantiation of `C9_guild_snapshot_channels`: the channel
supplied without a guild id is retrievable with guild id 123. -/
theorem C9_witness :
    (InMemoryCache.guild_channel (cache_guild snapshotGuildExample emptyCache) 111).map
      GuildChannel.guildIdField = some (some 123) :=
  C9_guild_snapshot_channels snapshotGuildExample emptyCache
    (GuildChannel.text { id := 111, guild_id := none, payload := 0 })
    (by decide) (by decide)

/-! ## Claim C3 -/

theorem emojiSkip_true_iff {emoji : Emoji} {emojis : List (EmojiId × GuildItem CachedEmoji)} :
    emojiSkip emoji emojis = true ↔
      ∃ it, mapLookup emoji.id emojis = some it ∧ it.data = toCachedEmoji emoji := by
  unfold emojiSkip
  cases hl : mapLookup emoji.id emojis with
  | none => simp
  | some it => simp [cachedEmojiEqEmoji]

theorem cache_emoji_of_skip {emoji : Emoji} {s : CacheState} (guild_id : GuildId)
    (h : emojiSkip emoji s.emojis = true) : cache_emoji guild_id emoji s = s := by
  unfold cache_emoji
  rw [if_pos h]

theorem cache_emoji_of_not_skip {emoji : Emoji} {s : CacheState} (guild_id : GuildId)
    (h : ¬ emojiSkip emoji s.emojis = true) :
    (cache_emoji guild_id emoji s).guild_emojis =
      entryInsert s.guild_emojis guild_id emoji.id ∧
    (cache_emoji guild_id emoji s).emojis =
      mapInsert emoji.id { data := toCachedEmoji emoji, guild_id := guild_id } s.emojis := by
  unfold cache_emoji
  rw [if_neg h]
  constructor <;> (cases hu : emoji.user <;> rfl)

/-- Keys outside the ids of the remaining collection keep their primary
entries through the upsert loop. -/
theorem cache_emoji_loop_lookup_preserved (g : GuildId) (R : List Emoji) :
    ∀ (t : CacheState) (k : EmojiId), k ∉ R.map (fun e => e.id) →
      mapLookup k (R.foldl (fun s e => cache_emoji g e s) t).emojis =
        mapLookup k t.emojis := by
  induction R with
  | nil => intro t k _; rfl
  | cons e rest ih =>
    intro t k hk
    have hk1 : k ≠ e.id := fun hh => hk (by simp [hh])
    have hk2 : k ∉ rest.map (fun e => e.id) := fun hh => hk (by simp [hh])
    rw [List.foldl_cons, ih _ k hk2]
    by_cases hskip : emojiSkip e t.emojis = true
    · rw [cache_emoji_of_skip g hskip]
    · rw [(cache_emoji_of_not_skip g hskip).2, mapLookup_insert_ne hk1]

/-- The upsert loop of `cache_emojis`: provided the incoming ids are distinct,
the primary entries of the incoming ids are still the reference ones, and
every incoming emoji already cached with an equal value is already indexed
under `g`, the loop adds exactly the incoming ids to `g`'s index and leaves
every incoming id cached with its incoming value. -/
theorem cache_emoji_loop_spec (g : GuildId)
    (s0prim : List (EmojiId × GuildItem CachedEmoji)) (R : List Emoji) :
    ∀ (t : CacheState),
    (∀ e ∈ R, mapLookup e.id t.emojis = mapLookup e.id s0prim) →
    (R.map (fun e => e.id)).Nodup →
    (∀ e ∈ R, ∀ it, mapLookup e.id s0prim = some it →
      it.data = toCachedEmoji e → e.id ∈ setLookup t.guild_emojis g) →
    (∀ k, k ∈ setLookup (R.foldl (fun s e => cache_emoji g e s) t).guild_emojis g ↔
      (k ∈ setLookup t.guild_emojis g ∨ k ∈ R.map (fun e => e.id))) ∧
    (∀ e ∈ R, ∃ it,
      mapLookup e.id (R.foldl (fun s e => cache_emoji g e s) t).emojis = some it ∧
      it.data = toCachedEmoji e) := by
  induction R with
  | nil =>
    intro t _ _ _
    exact ⟨fun k => by simp, fun e he => absurd he (List.not_mem_nil e)⟩
  | cons e rest ih =>
    intro t hI2 hnd hskip
    have hend : e.id ∉ rest.map (fun e => e.id) ∧ (rest.map (fun e => e.id)).Nodup := by
      rw [List.map_cons, List.nodup_cons] at hnd
      exact hnd
    rw [List.foldl_cons]
    by_cases hsk : emojiSkip e t.emojis = true
    · rw [cache_emoji_of_skip g hsk]
      obtain ⟨it, hit, hdata⟩ := emojiSkip_true_iff.mp hsk
      have hit0 : mapLookup e.id s0prim = some it := by
        rw [← hI2 e (List.mem_cons_self e rest)]
        exact hit
      have hidx : e.id ∈ setLookup t.guild_emojis g :=
        hskip e (List.mem_cons_self e rest) it hit0 hdata
      obtain ⟨ihA, ihB⟩ := ih t
        (fun e' he' => hI2 e' (List.mem_cons_of_mem e he'))
        hend.2
        (fun e' he' => hskip e' (List.mem_cons_of_mem e he'))
      refine ⟨?_, ?_⟩
      · intro k
        rw [ihA k]
        constructor
        · rintro (h | h)
          · exact Or.inl h
          · exact Or.inr (by simp [h])
        · rintro (h | h)
          · exact Or.inl h
          · rcases (by simpa using h : k = e.id ∨ k ∈ rest.map (fun e => e.id)) with
              h1 | h1
            · exact Or.inl (h1 ▸ hidx)
            · exact Or.inr h1
      · intro e' he'
        rcases List.mem_cons.mp he' with rfl | he'
        · refine ⟨it, ?_, hdata⟩
          rw [cache_emoji_loop_lookup_preserved g rest t e'.id hend.1]
          exact hit
        · exact ihB e' he'
    · obtain ⟨hgidx, hprim⟩ := cache_emoji_of_not_skip g hsk
      obtain ⟨ihA, ihB⟩ := ih (cache_emoji g e t)
        (fun e' he' => by
          rw [hprim, mapLookup_insert_ne]
          · exact hI2 e' (List.mem_cons_of_mem e he')
          · intro hh
            exact hend.1 (hh ▸ List.mem_map_of_mem (fun e => e.id) he'))
        hend.2
        (fun e' he' it hit hdata => by
          rw [hgidx]
          exact setLookup_entryInsert_superset _ _ _
            (hskip e' (List.mem_cons_of_mem e he') it hit hdata))
      refine ⟨?_, ?_⟩
      · intro k
        rw [ihA k, hgidx, setLookup_entryInsert_self, mem_setInsert_iff]
        constructor
        · rintro ((h | h) | h)
          · exact Or.inr (by simp [h])
          · exact Or.inl h
          · exact Or.inr (by simp [h])
        · rintro (h | h)
          · exact Or.inl (Or.inr h)
          · rcases (by simpa using h : k = e.id ∨ k ∈ rest.map (fun e => e.id)) with
              h1 | h1
            · exact Or.inl (Or.inl h1)
            · exact Or.inr h1
      · intro e' he'
        rcases List.mem_cons.mp he' with rfl | he'
        · refine ⟨{ data := toCachedEmoji e', guild_id := g }, ?_, rfl⟩
          rw [cache_emoji_loop_lookup_preserved g rest _ e'.id hend.1, hprim,
            mapLookup_insert_self]
        · exact ihB e' he'

theorem foldl_setErase_mem {A : Type} [DecidableEq A] (R : List A) :
    ∀ (s : List A) (x : A),
      x ∈ R.foldl (fun acc e => setErase e acc) s ↔ x ∈ s ∧ x ∉ R := by
  induction R with
  | nil =>
    intro s x
    simp
  | cons e rest ih =>
    intro s x
    rw [List.foldl_cons, ih, mem_setErase_iff]
    constructor
    · rintro ⟨⟨hx, hne⟩, hnr⟩
      refine ⟨hx, ?_⟩
      intro hh
      rcases List.mem_cons.mp hh with hh | hh
      · exact hne hh
      · exact hnr hh
    · rintro ⟨hx, hnr⟩
      exact ⟨⟨hx, fun hh => hnr (by simp [hh])⟩, fun hh => hnr (by simp [hh])⟩

theorem foldl_mapErase_lookup {K V : Type} [DecidableEq K] (R : List K) :
    ∀ (m : List (K × V)) (k : K),
      mapLookup k (R.foldl (fun acc e => mapErase e acc) m) =
        if k ∈ R then none else mapLookup k m := by
  induction R with
  | nil =>
    intro m k
    simp
  | cons e rest ih =>
    intro m k
    rw [List.foldl_cons, ih]
    by_cases h1 : k ∈ rest
    · simp [h1]
    · by_cases h2 : k = e
      · subst h2
        simp [h1, mapLookup_erase_self]
      · simp [h1, h2, mapLookup_erase_ne h2]

/-- After the removal phase, the guild's index retains exactly the
previously indexed incoming ids. -/
theorem emojis_removal_phase_index (g : GuildId) (emojis : List Emoji) (s : CacheState)
    (k : EmojiId) :
    k ∈ setLookup (emojis_removal_phase g emojis s).guild_emojis g ↔
      (k ∈ setLookup s.guild_emojis g ∧ k ∈ emojis.map (fun e => e.id)) := by
  unfold emojis_removal_phase
  cases hl : mapLookup g s.guild_emojis with
  | none =>
    have h0 : setLookup s.guild_emojis g = [] := by
      unfold setLookup
      rw [hl]
      rfl
    simp [h0]
  | some ge =>
    have h0 : setLookup s.guild_emojis g = ge := by
      unfold setLookup
      rw [hl]
      rfl
    dsimp only
    unfold setLookup
    rw [mapLookup_insert_self]
    rw [setLookup] at h0
    rw [h0]
    simp only [Option.getD_some]
    rw [foldl_setErase_mem]
    constructor
    · rintro ⟨hk, hnr⟩
      refine ⟨hk, ?_⟩
      by_contra hni
      exact hnr (List.mem_filter.mpr ⟨hk, by simpa using hni⟩)
    · rintro ⟨hk, hi⟩
      refine ⟨hk, ?_⟩
      intro hr
      have h2 : k ∉ emojis.map (fun e => e.id) := by
        simpa using (List.mem_filter.mp hr).2
      exact h2 hi

/-- The removal phase does not touch the primary entries of incoming ids. -/
theorem emojis_removal_phase_prim (g : GuildId) (emojis : List Emoji) (s : CacheState)
    (k : EmojiId) (hk : k ∈ emojis.map (fun e => e.id)) :
    mapLookup k (emojis_removal_phase g emojis s).emojis = mapLookup k s.emojis := by
  unfold emojis_removal_phase
  cases hl : mapLookup g s.guild_emojis with
  | none => rfl
  | some ge =>
    dsimp only
    rw [foldl_mapErase_lookup, if_neg]
    intro hr
    have h2 : k ∉ emojis.map (fun e => e.id) := by
      simpa using (List.mem_filter.mp hr).2
    exact h2 hk

theorem cache_emojis_loop_all_skip (g : GuildId) (R : List Emoji) (t : CacheState)
    (h : ∀ e ∈ R, cache_emoji g e t = t) :
    R.foldl (fun s e => cache_emoji g e s) t = t := by
  induction R with
  | nil => rfl
  | cons e rest ih =>
    rw [List.foldl_cons, h e (List.mem_cons_self e rest)]
    exact ih (fun e' he' => h e' (List.mem_cons_of_mem e he'))

/-- A state whose `g` index holds only incoming ids and whose primary table
already caches every incoming emoji with an equal value is a fixed point of
`cache_emojis`. -/
theorem cache_emojis_fixed (g : GuildId) (emojis : List Emoji) (t : CacheState)
    (hidx : ∀ k ∈ setLookup t.guild_emojis g, k ∈ emojis.map (fun e => e.id))
    (hprim : ∀ e ∈ emojis, ∃ it, mapLookup e.id t.emojis = some it ∧
      it.data = toCachedEmoji e) :
    cache_emojis g emojis t = t := by
  have hloop : ∀ e ∈ emojis, cache_emoji g e t = t := by
    intro e he
    exact cache_emoji_of_skip g (emojiSkip_true_iff.mpr (hprim e he))
  have hphase : emojis_removal_phase g emojis t = t := by
    unfold emojis_removal_phase
    cases hl : mapLookup g t.guild_emojis with
    | none => rfl
    | some ge =>
      dsimp only
      have hge : ∀ k ∈ ge, k ∈ emojis.map (fun e => e.id) := by
        intro k hk
        apply hidx k
        unfold setLookup
        rw [hl]
        exact hk
      have hrf : ge.filter (fun e => decide (e ∉ emojis.map (fun e => e.id))) = [] := by
        rw [List.filter_eq_nil]
        intro a ha
        simp [hge a ha]
      rw [hrf]
      simp only [List.foldl_nil]
      rw [mapInsert_lookup_eq hl]
  unfold cache_emojis
  rw [hphase]
  exact cache_emojis_loop_all_skip g emojis t hloop

/-- Claim C3 (amended): for every guild, incoming emoji collection with
pairwise-distinct ids, and prior cache state in which every incoming emoji
already cached with an equal value is already in the guild's emoji index,
`cache_emojis(G, E)` makes the guild's emoji index exactly the ids of `E`,
and an immediate identical retransmission leaves the whole state unchanged.
(The provisos are forced: an incoming emoji cached with an equal value under
another guild is skipped by the upsert's equality short-circuit and never
indexed under `G`.) -/
theorem C3_cache_emojis_exact_and_idempotent (g : GuildId) (emojis : List Emoji)
    (s : CacheState)
    (hnodup : (emojis.map (fun e => e.id)).Nodup)
    (hskip : ∀ e ∈ emojis, ∀ it, mapLookup e.id s.emojis = some it →
      it.data = toCachedEmoji e → e.id ∈ setLookup s.guild_emojis g) :
    (∀ k, k ∈ setLookup (cache_emojis g emojis s).guild_emojis g ↔
      k ∈ emojis.map (fun e => e.id)) ∧
    cache_emojis g emojis (cache_emojis g emojis s) = cache_emojis g emojis s := by
  obtain ⟨hA, hB⟩ := cache_emoji_loop_spec g s.emojis emojis
    (emojis_removal_phase g emojis s)
    (fun e he => emojis_removal_phase_prim g emojis s e.id (List.mem_map_of_mem _ he))
    hnodup
    (fun e he it hit hdata =>
      (emojis_removal_phase_index g emojis s e.id).mpr
        ⟨hskip e he it hit hdata, List.mem_map_of_mem _ he⟩)
  have hexact : ∀ k, k ∈ setLookup (cache_emojis g emojis s).guild_emojis g ↔
      k ∈ emojis.map (fun e => e.id) := by
    intro k
    rw [show cache_emojis g emojis s = emojis.foldl (fun s e => cache_emoji g e s)
      (emojis_removal_phase g emojis s) from rfl, hA k]
    constructor
    · rintro (h | h)
      · exact ((emojis_removal_phase_index g emojis s k).mp h).2
      · exact h
    · exact Or.inr
  refine ⟨hexact, ?_⟩
  apply cache_emojis_fixed
  · intro k hk
    exact (hexact k).mp hk
  · intro e he
    exact hB e he

/-- Claim C3 as stated is false: with emoji 3 already cached under guild 2
with an equal value, `cache_emojis(1, [emoji 3])` leaves guild 1's emoji
index without the incoming id (the upsert's equality short-circuit skips the
index insertion), so the index does not equal the incoming id set. -/
theorem C3_counterexample :
    (3 ∉ setLookup (cache_emojis 1 [{ id := 3, user := none, payload := 0 }]
      (cache_emoji 2 { id := 3, user := none, payload := 0 } emptyCache)).guild_emojis 1) ∧
    3 ∈ ([{ id := 3, user := none, payload := 0 }] : List Emoji).map (fun e => e.id) := by
  decide

/-- Concrete instantiation of `C3_cache_emojis_exact_and_idempotent`: a
refresh of guild 1 with one fresh emoji. -/
theorem C3_witness :
    (3 ∈ setLookup (cache_emojis 1 [{ id := 3, user := none, payload := 0 }]
      emptyCache).guild_emojis 1) ∧
    cache_emojis 1 [{ id := 3, user := none, payload := 0 }]
        (cache_emojis 1 [{ id := 3, user := none, payload := 0 }] emptyCache) =
      cache_emojis 1 [{ id := 3, user := none, payload := 0 }] emptyCache := by
  have h := C3_cache_emojis_exact_and_idempotent 1
    [{ id := 3, user := none, payload := 0 }] emptyCache (by decide)
    (fun e he it hit hdata => Option.noConfusion hit)
  exact ⟨(h.1 3).mpr (by decide), h.2⟩

/-! ## Backward guild-scope coherence under the mutation entry points -/

/-- A lookup under a key other than the upserted one is unchanged by
`upsert_guild_item`. -/
theorem mapLookup_upsert_ne {K V : Type} [DecidableEq K] [DecidableEq V]
    {k' k : K} (h : k' ≠ k) (m : List (K × GuildItem V)) (g : GuildId) (v : V) :
    mapLookup k' (upsert_guild_item m g k v) = mapLookup k' m := by
  unfold upsert_guild_item
  cases hl : mapLookup k m with
  | some item0 =>
    dsimp only
    by_cases hd : item0.data = v
    · rw [if_pos hd]
    · rw [if_neg hd]
      exact mapLookup_insert_ne h _ _
  | none => exact mapLookup_insert_ne h _ _

/-- The upserted key afterwards holds either its previous wrapper (the
equal-data no-op) or the freshly wrapped incoming value. -/
theorem mapLookup_upsert_self {K V : Type} [DecidableEq K] [DecidableEq V]
    (m : List (K × GuildItem V)) (g : GuildId) (k : K) (v : V) :
    mapLookup k (upsert_guild_item m g k v) = mapLookup k m ∨
    mapLookup k (upsert_guild_item m g k v) = some { data := v, guild_id := g } := by
  unfold upsert_guild_item
  cases hl : mapLookup k m with
  | some item0 =>
    dsimp only
    by_cases hd : item0.data = v
    · rw [if_pos hd]
      exact Or.inl hl
    · rw [if_neg hd]
      exact Or.inr (mapLookup_insert_self _ _ _)
  | none => exact Or.inr (mapLookup_insert_self _ _ _)

/-- An index-then-upsert pair (`cache_role`, `cache_guild_channel`,
`cache_stage_instance`, `cache_integration`) preserves backward coherence:
even the equal-data no-op that keeps a stale recorded guild is covered,
because indexes only grow. -/
theorem giCoherent_upsert {K A V : Type} [DecidableEq K] [DecidableEq A] [DecidableEq V]
    {proj : K → A} {primary : List (K × GuildItem V)} {index : List (GuildId × List A)}
    (g : GuildId) (k : K) (v : V)
    (h : giCoherent proj primary index) :
    giCoherent proj (upsert_guild_item primary g k v) (entryInsert index g (proj k)) := by
  intro k' hk'
  apply optAll_intro
  intro it hit
  by_cases hkk : k' = k
  · subst hkk
    rcases mapLookup_upsert_self primary g k' v with hc | hc
    · rw [hc] at hit
      have h2 := h k' (mem_keysOf_of_lookup hit)
      rw [hit] at h2
      have hmem : proj k' ∈ setLookup index it.guild_id := optAll_some h2
      exact setLookup_entryInsert_superset _ _ _ hmem
    · rw [hc] at hit
      injection hit with hit
      subst hit
      exact mem_setLookup_entryInsert_self index g (proj k')
  · rw [mapLookup_upsert_ne hkk primary g v] at hit
    have h2 := h k' (mem_keysOf_of_lookup hit)
    rw [hit] at h2
    have hmem : proj k' ∈ setLookup index it.guild_id := optAll_some h2
    exact setLookup_entryInsert_superset _ _ _ hmem

/-- A raw primary insert paired with an index insert (the non-skip branch of
`cache_emoji`) preserves backward coherence. -/
theorem giCoherent_rawInsert {K A V : Type} [DecidableEq K] [DecidableEq A]
    {proj : K → A} {primary : List (K × GuildItem V)} {index : List (GuildId × List A)}
    (g : GuildId) (k : K) (v : V)
    (h : giCoherent proj primary index) :
    giCoherent proj (mapInsert k { data := v, guild_id := g } primary)
      (entryInsert index g (proj k)) := by
  intro k' hk'
  apply optAll_intro
  intro it hit
  by_cases hkk : k' = k
  · subst hkk
    rw [mapLookup_insert_self] at hit
    injection hit with hit
    subst hit
    exact mem_setLookup_entryInsert_self index g (proj k')
  · rw [mapLookup_insert_ne hkk _ _] at hit
    have h2 := h k' (mem_keysOf_of_lookup hit)
    rw [hit] at h2
    have hmem : proj k' ∈ setLookup index it.guild_id := optAll_some h2
    exact setLookup_entryInsert_superset _ _ _ hmem

/-- Erasing a primary entry while leaving the index untouched (the delete
branch whose recorded guild has no index entry) preserves backward
coherence. -/
theorem giCoherent_erase_noidx {K A V : Type} [DecidableEq K] [DecidableEq A]
    {proj : K → A} {primary : List (K × GuildItem V)} {index : List (GuildId × List A)}
    (k : K) (h : giCoherent proj primary index) :
    giCoherent proj (mapErase k primary) index := by
  intro k' hk'
  obtain ⟨hkne, _⟩ := mem_keysOf_erase hk'
  apply optAll_intro
  intro it' hit'
  rw [mapLookup_erase_ne hkne] at hit'
  have h2 := h k' (mem_keysOf_of_lookup hit')
  rw [hit'] at h2
  exact optAll_some h2

/-- Erasing a primary entry and deleting its projected key from the recorded
guild's index set (the delete_* shape) preserves backward coherence, given
that no other surviving entry of the same guild projects to the same index
key. -/
theorem giCoherent_erase_prune {K A V : Type} [DecidableEq K] [DecidableEq A]
    {proj : K → A} {primary : List (K × GuildItem V)} {index : List (GuildId × List A)}
    (k : K) (it0 : GuildItem V) (gset : List A)
    (hli : mapLookup it0.guild_id index = some gset)
    (h : giCoherent proj primary index)
    (hinj : ∀ k' it', mapLookup k' primary = some it' → proj k' = proj k →
      it'.guild_id = it0.guild_id → k' = k) :
    giCoherent proj (mapErase k primary)
      (mapInsert it0.guild_id (setErase (proj k) gset) index) := by
  intro k' hk'
  obtain ⟨hkne, _⟩ := mem_keysOf_erase hk'
  apply optAll_intro
  intro it' hit'
  rw [mapLookup_erase_ne hkne] at hit'
  have h2 := h k' (mem_keysOf_of_lookup hit')
  rw [hit'] at h2
  have hmem : proj k' ∈ setLookup index it'.guild_id := optAll_some h2
  show proj k' ∈ setLookup (mapInsert it0.guild_id (setErase (proj k) gset) index)
    it'.guild_id
  by_cases hg : it'.guild_id = it0.guild_id
  · rw [hg]
    unfold setLookup
    rw [mapLookup_insert_self]
    simp only [Option.getD_some]
    rw [mem_setErase_iff]
    have hmem2 : proj k' ∈ gset := by
      have hset : setLookup index it0.guild_id = gset := by
        unfold setLookup
        rw [hli]
        rfl
      rw [hg, hset] at hmem
      exact hmem
    exact ⟨hmem2, fun heq => hkne (hinj k' it' hit' heq hg)⟩
  · unfold setLookup
    rw [mapLookup_insert_ne hg]
    exact hmem

theorem integrationsKeyedT_upsert (g : GuildId) (iid : IntegrationId)
    (v : GuildIntegration)
    {m : List ((GuildId × IntegrationId) × GuildItem GuildIntegration)}
    (h : integrationsKeyedT m) :
    integrationsKeyedT (upsert_guild_item m g (g, iid) v) := by
  intro k hk
  apply optAll_intro
  intro it hit
  by_cases hkk : k = (g, iid)
  · subst hkk
    rcases mapLookup_upsert_self m g (g, iid) v with hc | hc
    · rw [hc] at hit
      have h2 := h (g, iid) (mem_keysOf_of_lookup hit)
      rw [hit] at h2
      exact optAll_some h2
    · rw [hc] at hit
      injection hit with hit
      subst hit
      rfl
  · rw [mapLookup_upsert_ne hkk m g v] at hit
    have h2 := h k (mem_keysOf_of_lookup hit)
    rw [hit] at h2
    exact optAll_some h2

theorem integrationsKeyedT_erase (k : GuildId × IntegrationId)
    {m : List ((GuildId × IntegrationId) × GuildItem GuildIntegration)}
    (h : integrationsKeyedT m) :
    integrationsKeyedT (mapErase k m) := by
  intro k' hk'
  obtain ⟨hkne, _⟩ := mem_keysOf_erase hk'
  apply optAll_intro
  intro it hit
  rw [mapLookup_erase_ne hkne] at hit
  have h2 := h k' (mem_keysOf_of_lookup hit)
  rw [hit] at h2
  exact optAll_some h2

theorem guildScopedCoherent_cache_guild_channel (g : GuildId) (c : GuildChannel)
    {s : CacheState} (h : guildScopedCoherent s) :
    guildScopedCoherent (cache_guild_channel g c s) :=
  ⟨giCoherent_upsert g (c.withGuildId g).id (c.withGuildId g) h.1, h.2.1, h.2.2.1,
    h.2.2.2.1, h.2.2.2.2.1, h.2.2.2.2.2⟩

theorem guildScopedCoherent_cache_role (g : GuildId) (r : Role) {s : CacheState}
    (h : guildScopedCoherent s) : guildScopedCoherent (cache_role g r s) :=
  ⟨h.1, h.2.1, giCoherent_upsert g r.id r h.2.2.1, h.2.2.2.1, h.2.2.2.2.1, h.2.2.2.2.2⟩

theorem guildScopedCoherent_cache_stage_instance (g : GuildId) (si : StageInstance)
    {s : CacheState} (h : guildScopedCoherent s) :
    guildScopedCoherent (cache_stage_instance g si s) :=
  ⟨h.1, h.2.1, h.2.2.1, giCoherent_upsert g si.id si h.2.2.2.1, h.2.2.2.2.1, h.2.2.2.2.2⟩

theorem guildScopedCoherent_cache_integration (g : GuildId) (i : GuildIntegration)
    {s : CacheState} (h : guildScopedCoherent s) :
    guildScopedCoherent (cache_integration g i s) :=
  ⟨h.1, h.2.1, h.2.2.1, h.2.2.2.1, giCoherent_upsert g (g, i.id) i h.2.2.2.2.1,
    integrationsKeyedT_upsert g i.id i h.2.2.2.2.2⟩

/-- All fields other than the user/emoji ones are untouched by
`cache_emoji`. -/
theorem cache_emoji_frames (g : GuildId) (e : Emoji) (s : CacheState) :
    (cache_emoji g e s).channels_guild = s.channels_guild ∧
    (cache_emoji g e s).guild_channels = s.guild_channels ∧
    (cache_emoji g e s).roles = s.roles ∧
    (cache_emoji g e s).guild_roles = s.guild_roles ∧
    (cache_emoji g e s).stage_instances = s.stage_instances ∧
    (cache_emoji g e s).guild_stage_instances = s.guild_stage_instances ∧
    (cache_emoji g e s).integrations = s.integrations ∧
    (cache_emoji g e s).guild_integrations = s.guild_integrations := by
  unfold cache_emoji
  by_cases hsk : emojiSkip e s.emojis = true
  · rw [if_pos hsk]
    exact ⟨rfl, rfl, rfl, rfl, rfl, rfl, rfl, rfl⟩
  · rw [if_neg hsk]
    refine ⟨?_, ?_, ?_, ?_, ?_, ?_, ?_, ?_⟩ <;> (cases hu : e.user <;> rfl)

theorem guildScopedCoherent_cache_emoji (g : GuildId) (e : Emoji) {s : CacheState}
    (h : guildScopedCoherent s) : guildScopedCoherent (cache_emoji g e s) := by
  by_cases hsk : emojiSkip e s.emojis = true
  · rw [cache_emoji_of_skip g hsk]
    exact h
  · obtain ⟨hge, hpr⟩ := cache_emoji_of_not_skip g hsk
    obtain ⟨f1, f2, f3, f4, f5, f6, f7, f8⟩ := cache_emoji_frames g e s
    refine ⟨?_, ?_, ?_, ?_, ?_, ?_⟩
    · rw [f1, f2]
      exact h.1
    · rw [hpr, hge]
      exact giCoherent_rawInsert g e.id (toCachedEmoji e) h.2.1
    · rw [f3, f4]
      exact h.2.2.1
    · rw [f5, f6]
      exact h.2.2.2.1
    · rw [f7, f8]
      exact h.2.2.2.2.1
    · show integrationsKeyedT (cache_emoji g e s).integrations
      rw [f7]
      exact h.2.2.2.2.2

theorem guildScopedCoherent_emojis_removal (g : GuildId) (emojis : List Emoji)
    {s : CacheState} (h : guildScopedCoherent s) :
    guildScopedCoherent (emojis_removal_phase g emojis s) := by
  unfold emojis_removal_phase
  cases hl : mapLookup g s.guild_emojis with
  | none => exact h
  | some ge =>
    refine ⟨h.1, ?_, h.2.2.1, h.2.2.2.1, h.2.2.2.2.1, h.2.2.2.2.2⟩
    dsimp only
    intro k hk
    apply optAll_intro
    intro it hit
    rw [foldl_mapErase_lookup] at hit
    by_cases hkr : k ∈ ge.filter (fun e => decide (e ∉ emojis.map (fun e => e.id)))
    · rw [if_pos hkr] at hit
      exact Option.noConfusion hit
    · rw [if_neg hkr] at hit
      have h2 := h.2.1 k (mem_keysOf_of_lookup hit)
      rw [hit] at h2
      have hmem : k ∈ setLookup s.guild_emojis it.guild_id := optAll_some h2
      show k ∈ setLookup (mapInsert g
        ((ge.filter (fun e => decide (e ∉ emojis.map (fun e => e.id)))).foldl
          (fun acc e => setErase e acc) ge) s.guild_emojis) it.guild_id
      by_cases hg2 : it.guild_id = g
      · rw [hg2]
        unfold setLookup
        rw [mapLookup_insert_self]
        simp only [Option.getD_some]
        rw [foldl_setErase_mem]
        have hmem2 : k ∈ ge := by
          have hset : setLookup s.guild_emojis g = ge := by
            unfold setLookup
            rw [hl]
            rfl
          rw [hg2, hset] at hmem
          exact hmem
        exact ⟨hmem2, hkr⟩
      · unfold setLookup
        rw [mapLookup_insert_ne hg2]
        exact hmem

theorem guildScopedCoherent_cache_emoji_loop (g : GuildId) (R : List Emoji) :
    ∀ t : CacheState, guildScopedCoherent t →
      guildScopedCoherent (R.foldl (fun s e => cache_emoji g e s) t) := by
  induction R with
  | nil =>
    intro t ht
    exact ht
  | cons e rest ih =>
    intro t ht
    rw [List.foldl_cons]
    exact ih _ (guildScopedCoherent_cache_emoji g e ht)

theorem guildScopedCoherent_cache_emojis (g : GuildId) (emojis : List Emoji)
    {s : CacheState} (h : guildScopedCoherent s) :
    guildScopedCoherent (cache_emojis g emojis s) :=
  guildScopedCoherent_cache_emoji_loop g emojis _
    (guildScopedCoherent_emojis_removal g emojis h)

theorem guildScopedCoherent_delete_guild_channel (cid : ChannelId) {s : CacheState}
    (h : guildScopedCoherent s) : guildScopedCoherent (delete_guild_channel cid s) := by
  unfold delete_guild_channel
  cases hl : mapLookup cid s.channels_guild with
  | none => exact h
  | some item =>
    dsimp only
    cases hli : mapLookup item.guild_id s.guild_channels with
    | none =>
      exact ⟨giCoherent_erase_noidx cid h.1, h.2.1, h.2.2.1, h.2.2.2.1,
        h.2.2.2.2.1, h.2.2.2.2.2⟩
    | some gset =>
      exact ⟨giCoherent_erase_prune cid item gset hli h.1
          (fun k' it' _ hproj _ => hproj),
        h.2.1, h.2.2.1, h.2.2.2.1, h.2.2.2.2.1, h.2.2.2.2.2⟩

theorem guildScopedCoherent_delete_role (rid : RoleId) {s : CacheState}
    (h : guildScopedCoherent s) : guildScopedCoherent (delete_role rid s) := by
  unfold delete_role
  cases hl : mapLookup rid s.roles with
  | none => exact h
  | some item =>
    dsimp only
    cases hli : mapLookup item.guild_id s.guild_roles with
    | none =>
      exact ⟨h.1, h.2.1, giCoherent_erase_noidx rid h.2.2.1, h.2.2.2.1,
        h.2.2.2.2.1, h.2.2.2.2.2⟩
    | some gset =>
      exact ⟨h.1, h.2.1,
        giCoherent_erase_prune rid item gset hli h.2.2.1
          (fun k' it' _ hproj _ => hproj),
        h.2.2.2.1, h.2.2.2.2.1, h.2.2.2.2.2⟩

theorem guildScopedCoherent_delete_stage_instance (sid : StageId) {s : CacheState}
    (h : guildScopedCoherent s) :
    guildScopedCoherent (delete_stage_instance sid s) := by
  unfold delete_stage_instance
  cases hl : mapLookup sid s.stage_instances with
  | none => exact h
  | some item =>
    dsimp only
    cases hli : mapLookup item.guild_id s.guild_stage_instances with
    | none =>
      exact ⟨h.1, h.2.1, h.2.2.1, giCoherent_erase_noidx sid h.2.2.2.1,
        h.2.2.2.2.1, h.2.2.2.2.2⟩
    | some gset =>
      exact ⟨h.1, h.2.1, h.2.2.1,
        giCoherent_erase_prune sid item gset hli h.2.2.2.1
          (fun k' it' _ hproj _ => hproj),
        h.2.2.2.2.1, h.2.2.2.2.2⟩

theorem guildScopedCoherent_delete_integration (g : GuildId) (iid : IntegrationId)
    {s : CacheState} (h : guildScopedCoherent s) :
    guildScopedCoherent (delete_integration g iid s) := by
  unfold delete_integration
  cases hl : mapLookup (g, iid) s.integrations with
  | none => exact h
  | some item =>
    dsimp only
    have hkey : item.guild_id = g := by
      have h2 := h.2.2.2.2.2 (g, iid) (mem_keysOf_of_lookup hl)
      rw [hl] at h2
      exact optAll_some h2
    have hinj : ∀ (k' : GuildId × IntegrationId) (it' : GuildItem GuildIntegration),
        mapLookup k' s.integrations = some it' → k'.2 = iid →
        it'.guild_id = item.guild_id → k' = (g, iid) := by
      intro k' it' hit' hproj hgid
      have h2 := h.2.2.2.2.2 k' (mem_keysOf_of_lookup hit')
      rw [hit'] at h2
      have hk1 : it'.guild_id = k'.1 := optAll_some h2
      have hfst : k'.1 = g := by rw [← hk1, hgid, hkey]
      exact Prod.ext hfst hproj
    cases hli : mapLookup g s.guild_integrations with
    | none =>
      exact ⟨h.1, h.2.1, h.2.2.1, h.2.2.2.1,
        giCoherent_erase_noidx (g, iid) h.2.2.2.2.1,
        integrationsKeyedT_erase (g, iid) h.2.2.2.2.2⟩
    | some gset =>
      refine ⟨h.1, h.2.1, h.2.2.1, h.2.2.2.1, ?_,
        integrationsKeyedT_erase (g, iid) h.2.2.2.2.2⟩
      have hli0 : mapLookup item.guild_id s.guild_integrations = some gset := by
        rw [hkey]
        exact hli
      have hres := giCoherent_erase_prune (g, iid) item gset hli0 h.2.2.2.2.1 hinj
      rw [hkey] at hres
      exact hres

/-- The cache-wide clear does not preserve backward coherence: it keeps the
`stage_instances` primary table (the source never clears it) while emptying
the `guild_stage_instances` index, leaving a primary stage entry with no
index entry for its recorded guild. -/
theorem clear_breaks_stage_coherence :
    ¬ guildScopedCoherent (InMemoryCache.clear (cache_stage_instance 1
      { id := 5, channel_id := 2, guild_id := 1, payload := 0 } emptyCache)) := by
  decide

theorem guildScopedCoherent_applyMut (m : Mut) (hm : m ≠ Mut.mClear) {s : CacheState}
    (h : guildScopedCoherent s) : guildScopedCoherent (applyMut m s) := by
  cases m with
  | mChannel g c => exact guildScopedCoherent_cache_guild_channel g c h
  | mEmoji g e => exact guildScopedCoherent_cache_emoji g e h
  | mEmojiBulk g es => exact guildScopedCoherent_cache_emojis g es h
  | mRole g r => exact guildScopedCoherent_cache_role g r h
  | mStage g si => exact guildScopedCoherent_cache_stage_instance g si h
  | mIntegration g i => exact guildScopedCoherent_cache_integration g i h
  | mDeleteChannel cid => exact guildScopedCoherent_delete_guild_channel cid h
  | mDeleteRole rid => exact guildScopedCoherent_delete_role rid h
  | mDeleteStage sid => exact guildScopedCoherent_delete_stage_instance sid h
  | mDeleteIntegration g iid => exact guildScopedCoherent_delete_integration g iid h
  | mClear => exact absurd rfl hm

/-- Claim C2 (amended): only the backward half of the claimed equivalence is
an invariant, and only for the clear-free mutation sequences. For all five
guild-scoped categories, after any sequence of the guild-scoped mutation
calls other than clear (single-entity upserts and deletes for channels,
emojis, roles, stage instances, integrations, and the bulk emoji refresh)
starting from a backward-coherent state such as the empty cache, every
primary-table entry for key K whose recorded owning guild is G has K in
`guild_index(G)`. The forward half ("`guild_index(G)` contains K only if
the primary entry records owning guild G") is false — see the
counterexample — and clear must be excluded because it keeps the
`stage_instances` primary table while emptying its guild index (see
`clear_breaks_stage_coherence`). -/
theorem C2_backward_coherence_preserved (muts : List Mut) (s : CacheState)
    (hmuts : Mut.mClear ∉ muts)
    (h : guildScopedCoherent s) : guildScopedCoherent (applyMuts muts s) := by
  induction muts generalizing s with
  | nil => exact h
  | cons m rest ih =>
    have hm : m ≠ Mut.mClear := by
      intro he
      subst he
      exact hmuts (List.mem_cons_self _ rest)
    have hrest : Mut.mClear ∉ rest := fun hh => hmuts (List.mem_cons_of_mem m hh)
    rw [show applyMuts (m :: rest) s = applyMuts rest (applyMut m s) from rfl]
    exact ih _ hrest (guildScopedCoherent_applyMut m hm h)

/-- Claim C2 as stated is false: re-upserting role 7 with unchanged data
under a different guild id indexes it under guild 2, while
`upsert_guild_item`'s equal-data short-circuit keeps the primary wrapper's
recorded owning guild at 1 — so guild 2's role index contains key 7 whose
primary entry does not record owning guild 2. -/
theorem C2_counterexample :
    (7 ∈ setLookup (applyMuts [.mRole 1 { id := 7, payload := 0 },
        .mRole 2 { id := 7, payload := 0 }] emptyCache).guild_roles 2) ∧
    (mapLookup 7 (applyMuts [.mRole 1 { id := 7, payload := 0 },
        .mRole 2 { id := 7, payload := 0 }] emptyCache).roles).map
      (fun item => item.guild_id) = some 1 ∧
    (1 : GuildId) ≠ 2 := by
  decide

/-- Concrete instantiation of `C2_backward_coherence_preserved`: the empty
cache is backward-coherent and remains so across a clear-free
upsert/re-upsert/delete sequence. -/
theorem C2_witness :
    guildScopedCoherent (applyMuts
      [.mRole 1 { id := 7, payload := 0 }, .mRole 2 { id := 7, payload := 0 },
        .mDeleteRole 7] emptyCache) :=
  C2_backward_coherence_preserved
    [.mRole 1 { id := 7, payload := 0 }, .mRole 2 { id := 7, payload := 0 },
      .mDeleteRole 7] emptyCache (by decide) (by decide)

end TwilightCache
